import Mathlib

/-!
# Verification of the NaeuralEdgeProtocol js-browser-client core

A shallow embedding of the identity/signing engine (`src/web.blockchain.js`),
the node state cache (`StateManager`), the inbound message pipeline and the
`publish` entry point (`src/web.client.js`), together with proofs about them.

Modelling conventions:

* JSON values are the inductive type `Json` (numbers restricted to integers:
  none of the verified properties depends on float formatting).
* The wire between `JSON.stringify` and `JSON.parse` is represented by the
  parsed value: a signed envelope travels as `Option Json`, `none` standing
  for text that does not parse as JSON (`JSON.parse` throws).
* External cryptographic primitives (`crypto.subtle.digest`, the `elliptic`
  ECDSA implementation) are modelled ideally (collision-free hash, a
  signature verifies exactly for the key and digest it was produced from).
  The byte-level codecs the repository implements itself (hex, base64,
  URL-safe base64, address prefix handling) are modelled faithfully.
* JavaScript exceptions (`TypeError` from property access on `null` or
  `undefined`, `atob` failures, …) appear as `Except JsErr`.
-/

/-- A JSON value. Numbers are modelled as integers: the claims under
verification never depend on float formatting. Object fields are kept in
insertion order, as JavaScript does. -/
inductive Json where
  | null
  | bool (b : Bool)
  | num (n : Int)
  | str (s : String)
  | arr (elems : List Json)
  | obj (fields : List (String × Json))

mutual

/-- Structural equality test for `Json`, written by mutual recursion because
`deriving DecidableEq` does not handle the nested inductive. -/
def Json.beq : Json → Json → Bool
  | .null, .null => true
  | .bool a, .bool b => a == b
  | .num a, .num b => a == b
  | .str a, .str b => a == b
  | .arr a, .arr b => Json.beqElems a b
  | .obj a, .obj b => Json.beqFields a b
  | _, _ => false

def Json.beqElems : List Json → List Json → Bool
  | [], [] => true
  | x :: xs, y :: ys => Json.beq x y && Json.beqElems xs ys
  | _, _ => false

def Json.beqFields : List (String × Json) → List (String × Json) → Bool
  | [], [] => true
  | (k1, v1) :: xs, (k2, v2) :: ys => k1 == k2 && Json.beq v1 v2 && Json.beqFields xs ys
  | _, _ => false

end

theorem Json.beq_iff : ∀ a b : Json, Json.beq a b = true ↔ a = b := by
  have H : (∀ a b, Json.beq a b ↔ a = b) ∧
      (∀ (xs ys : List (String × Json)), Json.beqFields xs ys ↔ xs = ys) ∧
      (∀ (xs ys : List Json), Json.beqElems xs ys ↔ xs = ys) := by
    apply Json.beq.mutual_induct <;> intros <;>
      try simp_all [Json.beq, Json.beqElems, Json.beqFields]
    case case7 t u h1 h2 h3 h4 h5 h6 => intro heq; subst heq; cases t <;> simp_all
    case case10 t u h1 h2 =>
      intro heq; subst heq
      cases t with
      | nil => simp_all
      | cons x xs => exact h2 x xs x xs rfl rfl
    case case13 t u h1 h2 =>
      intro heq; subst heq
      cases t with
      | nil => simp_all
      | cons x xs => exact h2 x.1 x.2 xs x.1 x.2 xs rfl rfl
  exact fun a b => by rw [H.1 a b]

instance : DecidableEq Json := fun a b =>
  decidable_of_iff (Json.beq a b = true) (Json.beq_iff a b)

/-- JavaScript runtime errors that the embedded code can raise. -/
inductive JsErr where
  /-- property access or method call on `null`/`undefined`, or a method
  missing from the receiver (e.g. `.replace` on a number) -/
  | typeError
  /-- `_getHash`: `Unsupported input type. Input must be a string or object.` -/
  | unsupportedInput
  /-- `_prepareMessage`: `Unsupported format. Format must be either "object" or "json".` -/
  | unsupportedFormat
  /-- `atob` on malformed base64 (`InvalidCharacterError`) -/
  | invalidCharacter
  /-- `elliptic`'s `keyFromPublic` rejecting a byte string that is not a
  SEC1-encoded point -/
  | invalidKey
deriving DecidableEq

instance {ε α : Type} [DecidableEq ε] [DecidableEq α] : DecidableEq (Except ε α) :=
  fun x y =>
    match x, y with
    | .ok a, .ok b => if h : a = b then .isTrue (by rw [h]) else .isFalse (by simp [h])
    | .error a, .error b => if h : a = b then .isTrue (by rw [h]) else .isFalse (by simp [h])
    | .ok _, .error _ => .isFalse (by simp)
    | .error _, .ok _ => .isFalse (by simp)

/-- JavaScript truthiness of a JSON value. -/
def jsTruthy : Json → Bool
  | .null => false
  | .bool b => b
  | .num n => n != 0
  | .str s => s != ""
  | .arr _ => true
  | .obj _ => true

/-- Property lookup `v[k]` for receivers on which access cannot throw;
`none` is JavaScript's `undefined`. String/array index properties are not
modelled: the embedded code only ever looks up non-numeric keys here. -/
def jsGetField : Json → String → Option Json
  | .obj fields, k => fields.lookup k
  | _, _ => none

/-- Property access `v[k]` as JavaScript evaluates it: access on `null`
throws a `TypeError`, every other receiver yields a value or `undefined`. -/
def jsProp (v : Json) (k : String) : Except JsErr (Option Json) :=
  match v with
  | .null => .error .typeError
  | v => .ok (jsGetField v k)

/-- Own enumerable string-keyed entries of a value, as `Object.entries` and
the object spread `{ ...v }` enumerate them: object fields in insertion
order, array and string elements under their index keys, nothing for the
remaining primitives. -/
def jsEntries : Json → List (String × Json)
  | .obj fields => fields
  | .arr elems => elems.enum.map (fun p => (toString p.1, p.2))
  | .str s => s.data.enum.map (fun p => (toString p.1, Json.str (String.mk [p.2])))
  | _ => []

/-- `target[k] = v` on an association list: an existing key keeps its slot,
a new key is appended — exactly JavaScript's property-update order. -/
def setAssoc {α : Type} : List (String × α) → String → α → List (String × α)
  | [], k, v => [(k, v)]
  | (k', v') :: rest, k, v =>
    if k' = k then (k', v) :: rest else (k', v') :: setAssoc rest k v

/-- `Object.assign(target, src)` restricted to the fields of `target`:
copies every own enumerable entry of `src` onto `target`, in order. -/
def jsAssign (target : List (String × Json)) (src : Json) : List (String × Json) :=
  (jsEntries src).foldl (fun acc kv => setAssoc acc kv.1 kv.2) target

/-- JavaScript string coercion of a value used as a property key or inside a
template literal, for the cases the client exercises (`undefined` from a
missing array element included). Array/object coercion is abbreviated; no
verified claim depends on it. -/
def jsToPropertyKey : Option Json → String
  | none => "undefined"
  | some .null => "null"
  | some (.bool true) => "true"
  | some (.bool false) => "false"
  | some (.num n) => toString n
  | some (.str s) => s
  | some (.arr _) => "[array]"
  | some (.obj _) => "[object Object]"

/-! ## Hex and base64 codecs (`helper.functions.js` and `web.blockchain.js`) -/

/-- Value of one hex digit (code points 0-9, a-f, A-F);
`Buffer.from(…, 'hex')` accepts both cases. -/
def hexDigitVal (c : Char) : Option Nat :=
  if 48 ≤ c.toNat ∧ c.toNat ≤ 57 then some (c.toNat - 48)
  else if 97 ≤ c.toNat ∧ c.toNat ≤ 102 then some (c.toNat - 97 + 10)
  else if 65 ≤ c.toNat ∧ c.toNat ≤ 70 then some (c.toNat - 65 + 10)
  else none

/-- Lowercase hex digit for a value below 16. -/
def hexCharOf (n : Nat) : Char := "0123456789abcdef".data.getD n '*'

/-- `Buffer.from(hex, 'hex')`: consume hex digit pairs, truncating at the
first pair that is not valid hex (Node's forgiving behaviour). -/
def hexDecodeLoop : List Char → List Nat
  | c1 :: c2 :: rest =>
    match hexDigitVal c1, hexDigitVal c2 with
    | some h, some l => (16 * h + l) :: hexDecodeLoop rest
    | _, _ => []
  | _ => []

/-- Byte list to lowercase hex, two digits per byte — the
`charCodeAt(i).toString(16)` + pad loop of `addressToECPublicKey`, and
Node's `Buffer.toString('hex')`. -/
def hexOfBytes : List Nat → List Char
  | [] => []
  | b :: rest => hexCharOf (b / 16 % 16) :: hexCharOf (b % 16) :: hexOfBytes rest

/-- The standard base64 alphabet. -/
def b64Alphabet : List Char :=
  "ABCDEFGHIJKLMNOPQRSTUVWXYZabcdefghijklmnopqrstuvwxyz0123456789+/".data

/-- Character for a 6-bit group. -/
def b64CharOf (n : Nat) : Char := b64Alphabet.getD n '*'

/-- Index of a character in the base64 alphabet. -/
def b64ValOf (c : Char) : Option Nat :=
  go b64Alphabet 0
where
  go : List Char → Nat → Option Nat
    | [], _ => none
    | a :: rest, i => if a = c then some i else go rest (i + 1)

/-- Base64 encoding with padding (`Buffer.toString('base64')`, `btoa`). -/
def b64Encode : List Nat → List Char
  | [] => []
  | [b1] => [b64CharOf (b1 / 4), b64CharOf (b1 % 4 * 16), '=', '=']
  | [b1, b2] =>
    [b64CharOf (b1 / 4), b64CharOf (b1 % 4 * 16 + b2 / 16), b64CharOf (b2 % 16 * 4), '=']
  | b1 :: b2 :: b3 :: rest =>
    b64CharOf (b1 / 4) :: b64CharOf (b1 % 4 * 16 + b2 / 16) ::
      b64CharOf (b2 % 16 * 4 + b3 / 64) :: b64CharOf (b3 % 64) :: b64Encode rest

/-- Forgiving base64 decoding of a padding-stripped character list, as
`atob` performs it: full 4-character groups, a trailing group of 2 or 3
characters allowed, a trailing group of 1 rejected. -/
def b64DecodeCore : List Char → Option (List Nat)
  | [] => some []
  | [a, b] => do
    let va ← b64ValOf a
    let vb ← b64ValOf b
    some [va * 4 + vb / 16]
  | [a, b, c] => do
    let va ← b64ValOf a
    let vb ← b64ValOf b
    let vc ← b64ValOf c
    some [va * 4 + vb / 16, vb % 16 * 16 + vc / 4]
  | a :: b :: c :: d :: rest => do
    let va ← b64ValOf a
    let vb ← b64ValOf b
    let vc ← b64ValOf c
    let vd ← b64ValOf d
    let tail ← b64DecodeCore rest
    some ((va * 4 + vb / 16) :: (vb % 16 * 16 + vc / 4) :: (vc % 4 * 64 + vd) :: tail)
  | _ => none

/-- `atob`: strip trailing `=` padding, then decode; `none` models the
`InvalidCharacterError` throw. -/
def b64Decode (l : List Char) : Option (List Nat) :=
  b64DecodeCore ((l.reverse.dropWhile (· = '=')).reverse)

/-- `base64ToUrlSafeBase64` from `helper.functions.js`: global replacement
of `+` by `-` and `/` by `_`. -/
def toUrlSafeChar (c : Char) : Char :=
  if c = '+' then '-' else if c = '/' then '_' else c

/-- `urlSafeBase64ToBase64` from `helper.functions.js`: global replacement
of `-` by `+` and `_` by `/`. -/
def fromUrlSafeChar (c : Char) : Char :=
  if c = '-' then '+' else if c = '_' then '/' else c

def base64ToUrlSafeBase64 (base64 : String) : String :=
  String.mk (base64.data.map toUrlSafeChar)

def urlSafeBase64ToBase64 (urlSafeBase64 : String) : String :=
  String.mk (urlSafeBase64.data.map fromUrlSafeChar)

/-- JavaScript `String.prototype.replace` with a *string* pattern: replace
only the first occurrence, here specialised to deletion (the repository
always replaces by `''`). -/
def replaceFirstList (p : List Char) : List Char → List Char
  | [] => []
  | c :: rest =>
    if p.isPrefixOf (c :: rest) then (c :: rest).drop p.length
    else c :: replaceFirstList p rest

/-! ## Canonical serialization (`json-stable-stringify`) -/

/-- Lexicographic comparison of char lists by code point — the order
`Array.prototype.sort()` applies to object keys (identical to UTF-16
code-unit order on the Basic Multilingual Plane; no key under test leaves
it). -/
def charListLe : List Char → List Char → Bool
  | [], _ => true
  | _ :: _, [] => false
  | x :: xs, y :: ys =>
    if x.toNat < y.toNat then true
    else if y.toNat < x.toNat then false
    else charListLe xs ys

/-- Key order for serialized object fields (compares keys only). -/
def fieldLe (a b : String × String) : Prop := charListLe a.1.data b.1.data = true

instance : DecidableRel fieldLe := fun a b =>
  inferInstanceAs (Decidable (charListLe a.1.data b.1.data = true))

/-- `JSON.stringify` escaping for one character. -/
def escapeJsonChar (c : Char) : List Char :=
  if c = '"' then ['\\', '"']
  else if c = '\\' then ['\\', '\\']
  else if c = '\x08' then ['\\', 'b']
  else if c = '\x09' then ['\\', 't']
  else if c = '\x0a' then ['\\', 'n']
  else if c = '\x0c' then ['\\', 'f']
  else if c = '\x0d' then ['\\', 'r']
  else if c.toNat < 32 then
    ['\\', 'u', '0', '0', hexCharOf (c.toNat / 16), hexCharOf (c.toNat % 16)]
  else [c]

/-- A JSON string literal with `JSON.stringify` escaping. -/
def quoteString (s : String) : String :=
  String.mk ('"' :: s.data.foldr (fun c acc => escapeJsonChar c ++ acc) ['"'])

mutual

/-- The `json-stable-stringify` serialization used by `_getHash` and
`verify`: like `JSON.stringify` except that object keys are emitted in
sorted order (`Object.keys(node).sort()`) at every nesting level. The
children are serialized before sorting here; this is equivalent to the
library's order of operations because the sort compares keys only. -/
def stableStringify : Json → String
  | .null => "null"
  | .bool true => "true"
  | .bool false => "false"
  | .num n => toString n
  | .str s => quoteString s
  | .arr xs => "[" ++ String.intercalate "," (stringifyElems xs) ++ "]"
  | .obj fs =>
    "\x7b" ++ String.intercalate ","
      ((List.insertionSort fieldLe (stringifyFields fs)).map
        (fun p => quoteString p.1 ++ ":" ++ p.2)) ++ "\x7d"

def stringifyElems : List Json → List String
  | [] => []
  | x :: xs => stableStringify x :: stringifyElems xs

def stringifyFields : List (String × Json) → List (String × String)
  | [] => []
  | (k, v) :: fs => (k, stableStringify v) :: stringifyFields fs

end

/-! ## The identity and signing engine (`src/web.blockchain.js`) -/

def EE_SIGN : String := "EE_SIGN"

def EE_SENDER : String := "EE_SENDER"

def EE_HASH : String := "EE_HASH"

def ADDR_PREFIX : String := "0xai_"

def ALLOWED_PREFIXES : List String := ["0xai_", "aixp_"]

def NON_DATA_FIELDS : List String := [EE_SIGN, EE_SENDER, EE_HASH]

/-- An ideal SHA-256 digest: `crypto.subtle.digest('SHA-256', …)` is an
external primitive, modelled as a collision-free function of its input.
`ofString s` is the digest of the UTF-8 bytes of `s`; `ofDigestBytes d` is
the digest of the 32 raw bytes of digest `d` (the double hash `_signHash`
and `verify` both apply). -/
inductive Digest where
  | ofString (s : String)
  | ofDigestBytes (d : Digest)
deriving DecidableEq

/-- The lowercase-hex rendering of a digest
(`hashArray.map(b => b.toString(16).padStart(2, '0')).join('')`), modelled
as an injective encoding of the ideal digest. -/
def Digest.hexStr : Digest → String
  | .ofString s => "sha256:" ++ s
  | .ofDigestBytes d => "sha256bytes:" ++ d.hexStr

/-- The ideal DER+base64url encoding of an ECDSA signature by the key pair
whose compressed public key is `pubKey` over digest `d`. ECDSA with a
random nonce admits many byte-level signatures per (key, digest); the ideal
model collapses them to one canonical value, which `ecVerify` recognises
exactly. -/
def sigOf (pubKey : List Nat) (d : Digest) : String :=
  "sig:" ++ String.mk (hexOfBytes pubKey) ++ ":" ++ d.hexStr

/-- `NaeuralBC.ec.verify(hash, signature, publicKeyObj)` in the ideal
model: the signature verifies exactly when it is the canonical signature of
`pubKey` over `hash`. -/
def ecVerify (hash : Digest) (signature : String) (pubKey : List Nat) : Bool :=
  signature == sigOf pubKey hash

/-- `elliptic`'s `ec.keyFromPublic(hex, 'hex')`, modelled at the SEC1 byte
level: accept a compressed (33 bytes, leading `02`/`03`) or uncompressed
(65 bytes, leading `04`) point encoding and return the key as its byte
string; reject anything else. Curve membership of the decoded coordinates
is not modelled. -/
def ecKeyFromPublic (hexString : String) : Except JsErr (List Nat) :=
  let bytes := hexDecodeLoop hexString.data
  if bytes.length = 33 ∧ (bytes.head? = some 2 ∨ bytes.head? = some 3) then .ok bytes
  else if bytes.length = 65 ∧ bytes.head? = some 4 then .ok bytes
  else .error .invalidKey

/-- The signing engine instance: `loadIdentity` stores an `elliptic` key
pair and caches the URL-safe-base64 form of the compressed public key. Key
generation and PEM/PKCS8 decoding are external (`elliptic`, `asn1.js`); an
identity is determined by the bytes of its compressed public key
(`keyPair.getPublic(true, 'hex')`). -/
structure NaeuralBC where
  keyPairPub : List Nat
  compressedPublicKey : String

namespace NaeuralBC

/-- `NaeuralBC._removeAddressPrefix`: for each allowed prefix, delete its
first occurrence (`String.prototype.replace` with a string pattern). -/
def _removeAddressPrefix (address : String) : String :=
  ALLOWED_PREFIXES.foldl
    (fun pkB64 p => String.mk (replaceFirstList p.data pkB64.data)) address

/-- `NaeuralBC.compressPublicKeyObject`: hex → bytes → base64 → URL-safe
base64. -/
def compressPublicKeyObject (publicKey : String) : String :=
  base64ToUrlSafeBase64 (String.mk (b64Encode (hexDecodeLoop publicKey.data)))

/-- `NaeuralBC.addressFromPublicKey`. -/
def addressFromPublicKey (publicKey : String) : String :=
  ADDR_PREFIX ++ compressPublicKeyObject publicKey

/-- `NaeuralBC.addressToECPublicKey`: strip recognised prefixes, convert
URL-safe base64 to base64, `atob` to a binary string, rebuild the hex
string from char codes, and load the point with `ec.keyFromPublic`. -/
def addressToECPublicKey (address : String) : Except JsErr (List Nat) := do
  let pkB64 := _removeAddressPrefix address
  let standardB64 := urlSafeBase64ToBase64 pkB64
  match b64Decode standardB64.data with
  | none => .error .invalidCharacter
  | some bin => ecKeyFromPublic (String.mk (hexOfBytes bin))

/-- `loadIdentity`: the loaded key pair is summarised by its compressed
public key bytes; the engine caches their URL-safe-base64 form. -/
def loadIdentity (pub : List Nat) : NaeuralBC :=
  { keyPairPub := pub
    compressedPublicKey := compressPublicKeyObject (String.mk (hexOfBytes pub)) }

/-- `getAddress`. -/
def getAddress (bc : NaeuralBC) : String :=
  ADDR_PREFIX ++ bc.compressedPublicKey

/-- `NaeuralBC._getHash`: stable-stringify objects (`typeof input ===
'object'`, which includes `null` and arrays), hash strings as they are,
reject every other input type; returns `(strHash, binHash)`. -/
def _getHash (input : Json) : Except JsErr (String × Digest) :=
  match input with
  | .str s => .ok ((Digest.ofString s).hexStr, .ofString s)
  | .num _ => .error .unsupportedInput
  | .bool _ => .error .unsupportedInput
  | j => .ok ((Digest.ofString (stableStringify j)).hexStr,
              .ofString (stableStringify j))

/-- `NaeuralBC._signHash`: sign the SHA-256 re-hash of the 32 digest bytes;
the base64url DER encoding is the ideal signature string. -/
def _signHash (bc : NaeuralBC) (hash : Digest) : String :=
  sigOf bc.keyPairPub (.ofDigestBytes hash)

/-- `NaeuralBC._prepareMessage`: `Object.assign({}, input, { EE_SIGN,
EE_SENDER, EE_HASH })`, then return the envelope. The `'json'` format
serializes the envelope with `JSON.stringify`; since the envelope is
JSON-safe, the produced text parses back to the envelope itself, so both
formats are represented here by the envelope value. -/
def _prepareMessage (bc : NaeuralBC) (input : Json) (signatureB64 : String)
    (format : String) : Except JsErr Json := do
  let strHash := (← _getHash input).1
  let message := Json.obj (jsAssign (jsAssign [] input)
    (Json.obj [(EE_SIGN, .str signatureB64), (EE_SENDER, .str bc.getAddress),
               (EE_HASH, .str strHash)]))
  if format = "json" ∨ format = "object" then .ok message
  else .error .unsupportedFormat

/-- `NaeuralBC.sign`. -/
def sign (bc : NaeuralBC) (input : Json) (format : String := "json") :
    Except JsErr Json := do
  let binHash := (← _getHash input).2
  let signatureB64 := _signHash bc binHash
  _prepareMessage bc input signatureB64 format

/-- `NaeuralBC.verify`. The argument is the `JSON.parse` of the received
text: `none` for text that does not parse (the `try/catch` then returns
`false`). The body follows the source line by line; `TypeError`s from
method calls on `undefined`/non-strings surface as `Except.error`. -/
def verify (fullJSONMessage : Option Json) : Except JsErr Bool := do
  match fullJSONMessage with
  | none => .ok false
  | some objReceived => do
    let signatureB64 ← jsProp objReceived EE_SIGN
    let senderField ← jsProp objReceived EE_SENDER
    let pkB64 : Option String ←
      match senderField with
      | some v =>
        if jsTruthy v then
          match v with
          | .str s => pure (some (_removeAddressPrefix s))
          | _ => .error .typeError
        else pure none
      | none => pure none
    let receivedHash ← jsProp objReceived EE_HASH
    let objData := (jsEntries objReceived).filter
      (fun kv => !(NON_DATA_FIELDS.contains kv.1))
    let strData := stableStringify (.obj objData)
    let hashArray := Digest.ofString strData
    let hashHex := hashArray.hexStr
    let hashResult : Bool :=
      match receivedHash with
      | some (.str h) => hashHex == h
      | _ => false
    match pkB64 with
    | none => .ok (hashResult && false)
    | some pk => do
      let signatureStr ← match signatureB64 with
        | some (.str s) => pure s
        | _ => .error .typeError
      let publicKeyObj ← addressToECPublicKey pk
      let hash := Digest.ofDigestBytes hashArray
      let signatureResult := ecVerify hash signatureStr publicKeyObj
      .ok (hashResult && signatureResult)

end NaeuralBC

/-! ## The node state cache (`StateManager`) -/

/-- The remote clock metadata a heartbeat carries. -/
structure NodeTime where
  date : Option Json
  utc : Option Json
deriving DecidableEq

/-- The cached per-node snapshot. A missing node is seeded as
`{ lastUpdate: null, nodeTime: null, data: null }` (`none` in every
field) before being filled in. -/
structure NodeSnapshot where
  lastUpdate : Option Nat
  nodeTime : Option NodeTime
  data : Option (List (String × Json))
deriving DecidableEq

/-- A heartbeat as `nodeInfoUpdate` receives it after decoding and
processing: the node path, the remote clock fields, and the payload whose
own enumerable entries `{ ...data }` copies. -/
structure HeartbeatInfo where
  EE_PAYLOAD_PATH : List String
  EE_TIMESTAMP : Option Json
  EE_TIMEZONE : Option Json
  DATA : Json
deriving DecidableEq

/-- One watch of a tracked request: a path pattern (`null` entries match
anything) and its satisfaction flag.

Modelled from the spec: `NetworkRequest`/`NetworkRequestsHandler` live in
`src/models/network.requests.handler.js`, which is not under `src/`; the
shape follows §3 (*Watch*, *TrackedRequest*) and §4.2 of the spec. -/
structure Watch where
  path : List (Option Json)
  satisfied : Bool
deriving DecidableEq

/-- Modelled from the spec: a tracked request as §3 (*TrackedRequest*) and
§4.2 describe it — session id, action, watches, and the two timeout
handles attached by `setTimeoutIds`. -/
structure NetworkRequest where
  sessionId : String
  action : Option Json
  watches : List Watch
  firstResponseTimeout : Nat
  completeTimeout : Nat
deriving DecidableEq

/-- The `StateManager`'s mutable state. `universeMap` is the source's
`state.universe` (renamed: `universe` is a Lean keyword); `requests` is the
open-transaction index of the `networkRequestsHandler` (modelled from the
spec, see `NetworkRequest`). -/
structure StateManager where
  hb : List (String × NodeSnapshot)
  pending : List (String × Json)
  universeMap : List (String × Nat)
  network : List (String × Json)
  requests : List NetworkRequest
deriving DecidableEq

/-- `StateManager.nodeInfoUpdate`. The seeding branch
(`if (!this.state.hb[path[0]])`) initialises every field to `null`, and the
three assignments that follow set every field of the seeded or existing
snapshot, so the combined effect on either branch is a wholesale
replacement of the node's snapshot. The `state.update` event emission has
no effect on the cache and is outside the model. -/
def StateManager.nodeInfoUpdate (st : StateManager) (info : HeartbeatInfo)
    (now : Nat) : StateManager :=
  let node := info.EE_PAYLOAD_PATH.headD "undefined"
  let nodeTime : NodeTime := { date := info.EE_TIMESTAMP, utc := info.EE_TIMEZONE }
  let snap : NodeSnapshot :=
    { lastUpdate := some now
      nodeTime := some nodeTime
      data := some (jsEntries info.DATA) }
  { st with hb := setAssoc st.hb node snap }

/-- `StateManager.getUniverse`. -/
def StateManager.getUniverse (st : StateManager) : List (String × Nat) :=
  st.universeMap

/-- `StateManager.getNodeInfo`: `this.state.hb[node] !== undefined ? … : null`. -/
def StateManager.getNodeInfo (st : StateManager) (node : String) : Option NodeSnapshot :=
  st.hb.lookup node

/-- The `nodeInfo?.data?.pipelines` optional chain shared by the pipeline
and instance lookups. -/
def StateManager.pipelinesOf (st : StateManager) (node : String) : Option Json :=
  match st.getNodeInfo node with
  | none => none
  | some snap =>
    match snap.data with
    | none => none
    | some fields => jsGetField (.obj fields) "pipelines"

/-- `StateManager.getRunningPipelineConfig`. -/
def StateManager.getRunningPipelineConfig (st : StateManager)
    (node pipelineId : String) : Except JsErr (Option Json) :=
  match st.pipelinesOf node with
  | some pipelines =>
    if jsTruthy pipelines then
      match jsGetField pipelines pipelineId with
      | some entry => jsProp entry "config"
      | none => .ok none
    else .ok none
  | none => .ok none

/-- `Object.keys`: throws a `TypeError` on `null`/`undefined`, else lists
the own enumerable keys. -/
def jsObjectKeys (v : Option Json) : Except JsErr (List String) :=
  match v with
  | none => .error .typeError
  | some .null => .error .typeError
  | some (.obj fields) => .ok (fields.map Prod.fst)
  | some (.arr elems) => .ok (elems.enum.map (fun p => toString p.1))
  | some (.str s) => .ok (s.data.enum.map (fun p => toString p.1))
  | some _ => .ok []

/-- The `for (const signature of Object.keys(…plugins))` loop of
`getRunningInstanceConfig`: return the first truthy
`plugins[signature][instanceId]`'s `config`. -/
def findInstanceIn (plugins : Json) (instanceId : String) :
    List String → Except JsErr (Option Json)
  | [] => .ok none
  | signature :: rest => do
    match jsGetField plugins signature with
    | none => .error .typeError
    | some pluginMap => do
      let instOpt ← jsProp pluginMap instanceId
      match instOpt with
      | some inst =>
        if jsTruthy inst then jsProp inst "config"
        else findInstanceIn plugins instanceId rest
      | none => findInstanceIn plugins instanceId rest

/-- `StateManager.getRunningInstanceConfig`. Note the unguarded
`Object.keys(pipelines[pipelineId].plugins)`. -/
def StateManager.getRunningInstanceConfig (st : StateManager)
    (node pipelineId instanceId : String) : Except JsErr (Option Json) :=
  match st.pipelinesOf node with
  | some pipelines =>
    if jsTruthy pipelines then
      match jsGetField pipelines pipelineId with
      | some entry => do
        let plugins ← jsProp entry "plugins"
        let keys ← jsObjectKeys plugins
        findInstanceIn (plugins.getD .null) instanceId keys
      | none => .ok none
    else .ok none
  | none => .ok none

/-- `StateManager.updateNetworkSnapshot`. -/
def StateManager.updateNetworkSnapshot (st : StateManager) (supervisor : String)
    (update : Json) : StateManager :=
  { st with network := setAssoc st.network supervisor update }

/-- `StateManager.getNetworkSupervisors`. -/
def StateManager.getNetworkSupervisors (st : StateManager) : List String :=
  st.network.map Prod.fst

/-- `StateManager.getNetworkSnapshot`. -/
def StateManager.getNetworkSnapshot (st : StateManager) (supervisor : String) :
    Option Json :=
  st.network.lookup supervisor

/-- `StateManager.markNodeAsSeen`. -/
def StateManager.markNodeAsSeen (st : StateManager) (node : String)
    (timestamp : Nat) : StateManager :=
  { st with universeMap := setAssoc st.universeMap node timestamp }

/-- Modelled from the spec: the two timer durations come from
`src/constants.js`, which is not under `src/`; the literal values are
placeholders (no claim depends on them). -/
def TIMEOUT_TO_FIRST_RESPONSE : Nat := 20000

/-- Modelled from the spec: see `TIMEOUT_TO_FIRST_RESPONSE`. -/
def TIMEOUT_MAX_REQUEST_TIME : Nat := 60000

/-- `StateManager.registerMessage`: create a tracked request for the
message's `ACTION`, attach one unsatisfied watch per path, and attach the
two timeout handles. `createRequest`/`watch`/`setTimeoutIds` are modelled
from the spec (§4.2); the handler's index is the `requests` list. -/
def StateManager.registerMessage (st : StateManager) (message : Json)
    (watches : List (List (Option Json))) (sessionId : String) :
    StateManager × NetworkRequest :=
  let request : NetworkRequest :=
    { sessionId := sessionId
      action := jsGetField message "ACTION"
      watches := watches.map (fun p => { path := p, satisfied := false })
      firstResponseTimeout := TIMEOUT_TO_FIRST_RESPONSE
      completeTimeout := TIMEOUT_MAX_REQUEST_TIME }
  ({ st with requests := st.requests ++ [request] }, request)

/-! ## The inbound pipeline and `publish` (`src/web.client.js`) -/

namespace NaeuralWebClient

/-- `_messageIsSigned`: the baseline signature-presence filter is a
placeholder that always passes (`// todo: check signature`). -/
def _messageIsSigned (_message : String) : Bool := true

/-- First element of `message.EE_PAYLOAD_PATH` (`path[0]`), `none` playing
JavaScript's `undefined` for a missing element. -/
def jsIndex0 : Option Json → Option Json
  | some (.arr (x :: _)) => some x
  | some (.str ⟨c :: _⟩) => some (.str (String.mk [c]))
  | _ => none

/-- `_messageIsFromEdgeNode`: test `!!message.EE_PAYLOAD_PATH` and, when
present, immediately record the node as seen (the side effect lives inside
this filter stage). -/
def _messageIsFromEdgeNode (st : StateManager) (message : Json) (now : Nat) :
    StateManager × Bool :=
  let fromEdgeNode :=
    match jsGetField message "EE_PAYLOAD_PATH" with
    | some v => jsTruthy v
    | none => false
  if fromEdgeNode then
    let node := jsToPropertyKey (jsIndex0 (jsGetField message "EE_PAYLOAD_PATH"))
    (st.markNodeAsSeen node now, true)
  else (st, false)

/-- `_messageFromControlledFleet`: `this.bootOptions.fleet.includes(node)`.
Runs only after `_messageIsFromEdgeNode` let the message through. A
non-string `path[0]` is never strictly equal to a fleet entry. -/
def _messageFromControlledFleet (fleet : List String) (message : Json) : Bool :=
  match jsIndex0 (jsGetField message "EE_PAYLOAD_PATH") with
  | some (.str s) => fleet.contains s
  | _ => false

/-- `_processSupervisorMessage` (the `tap` stage): duplicates
`admin_pipeline` messages and re-emits them as supervisor payload events.
Event emission leaves the `StateManager` untouched, so the stage is the
identity on the cache. -/
def _processSupervisorMessage (st : StateManager) (_message : Json) : StateManager :=
  st

/-- `_messageHasKnownFormat`: empty, missing or falsy `EE_FORMATTER` means
the raw format; otherwise the lowercased name must be a registered
formatter. `toLowerCase` on a truthy non-string throws. -/
def _messageHasKnownFormat (formatterKeys : List String) (message : Json) :
    Except JsErr Bool :=
  match jsGetField message "EE_FORMATTER" with
  | none => .ok true
  | some v =>
    if jsTruthy v then
      match v with
      | .str s => .ok (formatterKeys.contains s.toLower)
      | _ => .error .typeError
    else .ok true

/-- The per-channel pipeline of `connectUpstream` from the point where the
frame has been decoded to text, passed the always-true signature filter and
been parsed by `_toJSON`: the edge-node marker filter (with its
`markNodeAsSeen` side effect), the supervisor tap, the fleet filter and the
known-format filter, in the source's order. The result carries the updated
cache and either the message handed to `_decodeToInternalFormat`, `none`
for a dropped message, or the error a stage threw. -/
def processParsedMessage (fleet formatterKeys : List String) (st : StateManager)
    (message : Json) (now : Nat) : StateManager × Except JsErr (Option Json) :=
  let step1 := _messageIsFromEdgeNode st message now
  if step1.2 then
    let st2 := _processSupervisorMessage step1.1 message
    if _messageFromControlledFleet fleet message then
      match _messageHasKnownFormat formatterKeys message with
      | .ok true => (st2, .ok (some message))
      | .ok false => (st2, .ok none)
      | .error e => (st2, .error e)
    else (st2, .ok none)
  else (step1.1, .ok none)

/-- Modelled from the spec: the command-name constants come from
`src/constants.js`, which is not under `src/`; the literal values are
placeholders (no claim depends on them). -/
def NODE_COMMAND_UPDATE_PIPELINE_INSTANCE : String := "UPDATE_PIPELINE_INSTANCE"

/-- Modelled from the spec: see `NODE_COMMAND_UPDATE_PIPELINE_INSTANCE`. -/
def NODE_COMMAND_UPDATE_CONFIG : String := "UPDATE_CONFIG"

/-- Modelled from the spec: see `NODE_COMMAND_UPDATE_PIPELINE_INSTANCE`. -/
def NODE_COMMAND_PIPELINE_COMMAND : String := "PIPELINE_COMMAND"

/-- Modelled from the spec: see `NODE_COMMAND_UPDATE_PIPELINE_INSTANCE`. -/
def NODE_COMMAND_ARCHIVE_CONFIG : String := "ARCHIVE_CONFIG"

/-- Modelled from the spec: see `NODE_COMMAND_UPDATE_PIPELINE_INSTANCE`. -/
def NODE_COMMAND_BATCH_UPDATE_PIPELINE_INSTANCE : String :=
  "BATCH_UPDATE_PIPELINE_INSTANCE"

/-- `message['PAYLOAD'][k]` as the watch-building `switch` reads it. A
missing `PAYLOAD` would throw in JavaScript; commands are well-formed on
the paths the claims visit, so the access is modelled as yielding
`undefined`. -/
def payloadField (message : Json) (k : String) : Option Json :=
  match jsGetField message "PAYLOAD" with
  | some p => jsGetField p k
  | none => none

/-- The `switch (message['ACTION'])` of `publish` that derives the watch
paths for the command. -/
def commandWatches (node : String) (message : Json) : List (List (Option Json)) :=
  match jsGetField message "ACTION" with
  | some (.str a) =>
    if a = NODE_COMMAND_UPDATE_PIPELINE_INSTANCE then
      [[some (.str node), payloadField message "NAME", payloadField message "SIGNATURE",
        payloadField message "INSTANCE_ID"]]
    else if a = NODE_COMMAND_UPDATE_CONFIG ∨ a = NODE_COMMAND_PIPELINE_COMMAND then
      [[some (.str node), payloadField message "NAME", some .null, some .null]]
    else if a = NODE_COMMAND_ARCHIVE_CONFIG then
      [[some (.str node), jsGetField message "PAYLOAD", some .null, some .null]]
    else if a = NODE_COMMAND_BATCH_UPDATE_PIPELINE_INSTANCE then
      match jsGetField message "PAYLOAD" with
      | some (.arr cmds) =>
        cmds.map (fun c =>
          [some (.str node), jsGetField c "NAME", jsGetField c "SIGNATURE",
           jsGetField c "INSTANCE_ID"])
      | _ => []
    else []
  | _ => []

/-- The slice of the client a `publish` call touches: the initiator name,
the state manager, and the outbound MQTT publications (topic and the parse
of the signed JSON payload). -/
structure WebClientState where
  initiator : String
  state : StateManager
  outbox : List (String × Json)
deriving DecidableEq

/-- How the promise returned by `publish` settles. -/
inductive PublishOutcome where
  /-- resolved on the spot, before any request/signing/publishing -/
  | resolvedImmediately (value : Json)
  /-- resolved right after publishing because no watch was attached -/
  | commandSent (value : Json)
  /-- left pending until the correlation engine or a timer settles it -/
  | awaitingResponse (sessionId : String)
  /-- the async executor threw -/
  | failed (e : JsErr)
deriving DecidableEq

/-- `{ data: { notification: 'Already closed.' } }`. -/
def alreadyClosedResponse : Json :=
  .obj [("data", .obj [("notification", .str "Already closed.")])]

/-- `NaeuralWebClient.publish`. The falsy-message early return resolves on
the spot; otherwise the command fields are stamped, watches derived,
the tracked request registered (`SESSION_ID` from `request.getId()` is the
`sessionId` argument; `TIME` is the `nowTime` argument), the message signed
and published to `lummetry/<node>/config`, and the promise resolves
immediately only when no watch was attached. -/
def publish (client : WebClientState) (bc : NaeuralBC) (node : String)
    (message : Option Json) (extraWatches : List (List (Option Json)))
    (nowTime : Json) (sessionId : String) : WebClientState × PublishOutcome :=
  let falsy := match message with
    | none => true
    | some m => !jsTruthy m
  if falsy then (client, .resolvedImmediately alreadyClosedResponse)
  else
    let m := match message with
      | some m => m
      | none => .null
    let m1 := Json.obj (setAssoc (setAssoc (setAssoc (jsEntries m)
      "INITIATOR_ID" (.str client.initiator)) "EE_ID" (.str node)) "TIME" nowTime)
    let watches := extraWatches ++ commandWatches node m1
    let registered := client.state.registerMessage m1 watches sessionId
    let m2 := Json.obj (setAssoc (jsEntries m1) "SESSION_ID" (.str sessionId))
    let toSend := Json.obj (jsEntries m2)
    match NaeuralBC.sign bc toSend "json" with
    | .error e => ({ client with state := registered.1 }, .failed e)
    | .ok signed =>
      let client1 : WebClientState :=
        { client with
          state := registered.1
          outbox := client.outbox ++ [("lummetry/" ++ node ++ "/config", signed)] }
      if watches.isEmpty then
        (client1, .commandSent (Json.obj [("DATA", .obj [("NOTIFICATION",
          .str (jsToPropertyKey (jsGetField m2 "ACTION") ++ " command sent."))])]))
      else (client1, .awaitingResponse sessionId)

end NaeuralWebClient

/-! ## A small object heap for the aliasing behaviour of `_prepareMessage` -/

/-- A heap of JavaScript objects, addressed by allocation index. Only what
the frame claim about `_prepareMessage` needs: `Object.assign({}, input, …)`
allocates a fresh object and writes into it, never into `input`. -/
abbrev Heap := List (List (String × Json))

/-- Dereference. -/
def heapGet (h : Heap) (r : Nat) : Option (List (String × Json)) :=
  h[r]?

/-- Overwrite the object at `r`. -/
def heapSet (h : Heap) (r : Nat) (fields : List (String × Json)) : Heap :=
  List.set h r fields

/-- `Object.assign(target, src)` field copying (the value side of one
source). -/
def assignOnto (target src : List (String × Json)) : List (String × Json) :=
  src.foldl (fun acc kv => setAssoc acc kv.1 kv.2) target

/-- `NaeuralBC._prepareMessage` at heap level, `'object'` format: allocate
`{}`, copy the caller's fields onto it, then write the three signing
fields. The `'json'` format would additionally serialize the result; the
caller's object is treated identically on both paths. -/
def prepareMessageOnHeap (h : Heap) (bc : NaeuralBC) (inputRef : Nat)
    (signatureB64 : String) : Heap × Nat :=
  let ret := h.length
  let h1 := h ++ [[]]
  let inputFields := (heapGet h1 inputRef).getD []
  let strHash := match NaeuralBC._getHash (Json.obj inputFields) with
    | .ok p => p.1
    | .error _ => ""
  let assigned := assignOnto (assignOnto [] inputFields)
    [(EE_SIGN, .str signatureB64), (EE_SENDER, .str bc.getAddress),
     (EE_HASH, .str strHash)]
  (heapSet h1 ret assigned, ret)

/-! ## Association-list lemmas -/

theorem lookup_setAssoc_self {α : Type} (l : List (String × α)) (k : String) (v : α) :
    (setAssoc l k v).lookup k = some v := by
  induction l with
  | nil => simp [setAssoc, List.lookup]
  | cons kv rest ih =>
    obtain ⟨k', v'⟩ := kv
    by_cases h : k' = k
    · subst h; simp [setAssoc, List.lookup]
    · have hb : (k == k') = false := beq_eq_false_iff_ne.mpr (Ne.symm h)
      simp [setAssoc, h, List.lookup, hb, ih]

theorem setAssoc_of_not_mem {α : Type} (l : List (String × α)) (k : String) (v : α)
    (h : k ∉ l.map Prod.fst) : setAssoc l k v = l ++ [(k, v)] := by
  induction l with
  | nil => rfl
  | cons kv rest ih =>
    simp only [List.map_cons, List.mem_cons] at h
    push_neg at h
    simp [setAssoc, Ne.symm h.1, ih h.2]

theorem foldl_setAssoc_disjoint {α : Type} (src : List (String × α)) :
    ∀ acc : List (String × α), (src.map Prod.fst).Nodup →
    (∀ k ∈ src.map Prod.fst, k ∉ acc.map Prod.fst) →
    src.foldl (fun a kv => setAssoc a kv.1 kv.2) acc = acc ++ src := by
  induction src with
  | nil => intro acc _ _; simp
  | cons kv rest ih =>
    intro acc hnd hdis
    obtain ⟨k, v⟩ := kv
    simp only [List.map_cons, List.nodup_cons] at hnd
    have hk : k ∉ acc.map Prod.fst := hdis k (by simp)
    have step : setAssoc acc k v = acc ++ [(k, v)] := setAssoc_of_not_mem acc k v hk
    simp only [List.foldl_cons, step]
    rw [ih (acc ++ [(k, v)]) hnd.2]
    · simp
    · intro k' hk'
      have h1 : k' ∉ acc.map Prod.fst := hdis k' (by simp [hk'])
      have h2 : k' ≠ k := fun heq => hnd.1 (heq ▸ hk')
      simp [List.map_append, List.mem_append, h1, h2]

theorem lookup_append_of_not_mem {α : Type} (l1 l2 : List (String × α)) (k : String)
    (h : k ∉ l1.map Prod.fst) : (l1 ++ l2).lookup k = l2.lookup k := by
  induction l1 with
  | nil => rfl
  | cons kv rest ih =>
    obtain ⟨k', v'⟩ := kv
    simp only [List.map_cons, List.mem_cons] at h
    push_neg at h
    have hb : (k == k') = false := beq_eq_false_iff_ne.mpr h.1
    simp [List.lookup, hb, ih h.2]

/-! ## Codec lemmas -/

theorem hexDigitVal_lt {c : Char} {n : Nat} (h : hexDigitVal c = some n) : n < 16 := by
  unfold hexDigitVal at h
  split_ifs at h <;> simp_all <;> omega

theorem hexDecodeLoop_lt : ∀ (l : List Char), ∀ b ∈ hexDecodeLoop l, b < 256
  | [] => by simp [hexDecodeLoop]
  | [c] => by simp [hexDecodeLoop]
  | c1 :: c2 :: rest => by
    intro b hb
    rw [hexDecodeLoop] at hb
    rcases hv1 : hexDigitVal c1 with _ | v1 <;> rcases hv2 : hexDigitVal c2 with _ | v2 <;>
      simp only [hv1, hv2] at hb
    · simp at hb
    · simp at hb
    · simp at hb
    · simp only [List.mem_cons] at hb
      rcases hb with hb | hb
      · have := hexDigitVal_lt hv1
        have := hexDigitVal_lt hv2
        omega
      · exact hexDecodeLoop_lt rest b hb

theorem hexDigitVal_hexCharOf : ∀ n, n < 16 → hexDigitVal (hexCharOf n) = some n := by
  decide

theorem hexDecode_hexOfBytes : ∀ (bs : List Nat), (∀ b ∈ bs, b < 256) →
    hexDecodeLoop (hexOfBytes bs) = bs
  | [] => by intro _; rfl
  | b :: rest => by
    intro h
    have hb : b < 256 := h b (by simp)
    rw [hexOfBytes, hexDecodeLoop]
    simp only [hexDigitVal_hexCharOf _ (show b / 16 % 16 < 16 by omega),
      hexDigitVal_hexCharOf _ (show b % 16 < 16 by omega)]
    rw [hexDecode_hexOfBytes rest (fun x hx => h x (by simp [hx]))]
    congr 1
    omega

theorem b64ValOf_b64CharOf : ∀ n, n < 64 → b64ValOf (b64CharOf n) = some n := by
  decide

theorem urlRound_b64CharOf : ∀ n, n < 64 →
    fromUrlSafeChar (toUrlSafeChar (b64CharOf n)) = b64CharOf n := by
  decide

theorem urlRound_padChar : fromUrlSafeChar (toUrlSafeChar '=') = '=' := by decide

theorem b64CharOf_ne_padChar : ∀ n, n < 64 → b64CharOf n ≠ '=' := by decide

/-- Converting to URL-safe base64 and back is the identity on base64
text. -/
theorem map_urlRound_b64Encode : ∀ (bs : List Nat), (∀ b ∈ bs, b < 256) →
    (b64Encode bs).map (fun c => fromUrlSafeChar (toUrlSafeChar c)) = b64Encode bs
  | [] => by intro _; rfl
  | [b1] => by
    intro h
    have hb1 : b1 < 256 := h b1 (by simp)
    simp only [b64Encode, List.map_cons, List.map_nil]
    rw [urlRound_b64CharOf _ (by omega), urlRound_b64CharOf _ (by omega), urlRound_padChar]
  | [b1, b2] => by
    intro h
    have hb1 : b1 < 256 := h b1 (by simp)
    have hb2 : b2 < 256 := h b2 (by simp)
    simp only [b64Encode, List.map_cons, List.map_nil]
    rw [urlRound_b64CharOf _ (by omega), urlRound_b64CharOf _ (by omega),
      urlRound_b64CharOf _ (by omega), urlRound_padChar]
  | b1 :: b2 :: b3 :: rest => by
    intro h
    have hb1 : b1 < 256 := h b1 (by simp)
    have hb2 : b2 < 256 := h b2 (by simp)
    have hb3 : b3 < 256 := h b3 (by simp)
    simp only [b64Encode, List.map_cons]
    rw [urlRound_b64CharOf _ (by omega), urlRound_b64CharOf _ (by omega),
      urlRound_b64CharOf _ (by omega), urlRound_b64CharOf _ (by omega),
      map_urlRound_b64Encode rest (fun x hx => h x (by simp [hx]))]

/-- Strip trailing `=` padding, as `b64Decode` does before decoding. -/
def stripPadding (l : List Char) : List Char :=
  (l.reverse.dropWhile (· = '=')).reverse

theorem stripPadding_group4 (a b c d : Char) (t : List Char) (hd : d ≠ '=') :
    stripPadding ([a, b, c, d] ++ t) = [a, b, c, d] ++ stripPadding t := by
  unfold stripPadding
  rw [List.reverse_append, List.dropWhile_append]
  by_cases he : (List.dropWhile (· = '=') t.reverse).isEmpty
  · rw [if_pos he]
    have : List.dropWhile (fun x => decide (x = '=')) [a, b, c, d].reverse =
        [a, b, c, d].reverse := by
      simp [List.dropWhile_cons, hd]
    rw [this]
    simp only [List.isEmpty_iff] at he
    rw [he]
    simp
  · rw [if_neg he]
    rw [List.reverse_append]
    simp

theorem b64Decode_b64Encode : ∀ (bs : List Nat), (∀ b ∈ bs, b < 256) →
    b64Decode (b64Encode bs) = some bs
  | [] => by intro _; rfl
  | [b1] => by
    intro h
    have hb1 : b1 < 256 := h b1 (by simp)
    have hne : b64CharOf (b1 % 4 * 16) ≠ '=' := b64CharOf_ne_padChar _ (by omega)
    show b64DecodeCore (stripPadding (b64Encode [b1])) = some [b1]
    have hstrip : stripPadding (b64Encode [b1]) =
        [b64CharOf (b1 / 4), b64CharOf (b1 % 4 * 16)] := by
      simp [b64Encode, stripPadding, List.dropWhile_cons, hne]
    rw [hstrip]
    rw [b64DecodeCore, b64ValOf_b64CharOf _ (by omega), b64ValOf_b64CharOf _ (by omega)]
    show some [b1 / 4 * 4 + b1 % 4 * 16 / 16] = some [b1]
    have he : b1 / 4 * 4 + b1 % 4 * 16 / 16 = b1 := by omega
    rw [he]
  | [b1, b2] => by
    intro h
    have hb1 : b1 < 256 := h b1 (by simp)
    have hb2 : b2 < 256 := h b2 (by simp)
    have hne : b64CharOf (b2 % 16 * 4) ≠ '=' := b64CharOf_ne_padChar _ (by omega)
    show b64DecodeCore (stripPadding (b64Encode [b1, b2])) = some [b1, b2]
    have hstrip : stripPadding (b64Encode [b1, b2]) =
        [b64CharOf (b1 / 4), b64CharOf (b1 % 4 * 16 + b2 / 16), b64CharOf (b2 % 16 * 4)] := by
      simp [b64Encode, stripPadding, List.dropWhile_cons, hne]
    rw [hstrip]
    rw [b64DecodeCore, b64ValOf_b64CharOf _ (by omega), b64ValOf_b64CharOf _ (by omega),
      b64ValOf_b64CharOf _ (by omega)]
    show some [b1 / 4 * 4 + (b1 % 4 * 16 + b2 / 16) / 16,
      (b1 % 4 * 16 + b2 / 16) % 16 * 16 + b2 % 16 * 4 / 4] = some [b1, b2]
    have he1 : b1 / 4 * 4 + (b1 % 4 * 16 + b2 / 16) / 16 = b1 := by omega
    have he2 : (b1 % 4 * 16 + b2 / 16) % 16 * 16 + b2 % 16 * 4 / 4 = b2 := by omega
    rw [he1, he2]
  | b1 :: b2 :: b3 :: rest => by
    intro h
    have hb1 : b1 < 256 := h b1 (by simp)
    have hb2 : b2 < 256 := h b2 (by simp)
    have hb3 : b3 < 256 := h b3 (by simp)
    have ih := b64Decode_b64Encode rest (fun x hx => h x (by simp [hx]))
    have hne : b64CharOf (b3 % 64) ≠ '=' := b64CharOf_ne_padChar _ (by omega)
    show b64DecodeCore (stripPadding (b64Encode (b1 :: b2 :: b3 :: rest))) =
      some (b1 :: b2 :: b3 :: rest)
    have henc : b64Encode (b1 :: b2 :: b3 :: rest) =
        [b64CharOf (b1 / 4), b64CharOf (b1 % 4 * 16 + b2 / 16),
         b64CharOf (b2 % 16 * 4 + b3 / 64), b64CharOf (b3 % 64)] ++ b64Encode rest := by
      rw [b64Encode]; rfl
    rw [henc, stripPadding_group4 _ _ _ _ _ hne]
    simp only [List.cons_append, List.nil_append, List.singleton_append]
    rw [b64DecodeCore, b64ValOf_b64CharOf _ (by omega), b64ValOf_b64CharOf _ (by omega),
      b64ValOf_b64CharOf _ (by omega), b64ValOf_b64CharOf _ (by omega)]
    have htail : b64DecodeCore (stripPadding (b64Encode rest)) = some rest := ih
    rw [htail]
    show some ((b1 / 4 * 4 + (b1 % 4 * 16 + b2 / 16) / 16) ::
      ((b1 % 4 * 16 + b2 / 16) % 16 * 16 + (b2 % 16 * 4 + b3 / 64) / 4) ::
      ((b2 % 16 * 4 + b3 / 64) % 4 * 64 + b3 % 64) :: rest) = some (b1 :: b2 :: b3 :: rest)
    have he1 : b1 / 4 * 4 + (b1 % 4 * 16 + b2 / 16) / 16 = b1 := by omega
    have he2 : (b1 % 4 * 16 + b2 / 16) % 16 * 16 + (b2 % 16 * 4 + b3 / 64) / 4 = b2 := by omega
    have he3 : (b2 % 16 * 4 + b3 / 64) % 4 * 64 + b3 % 64 = b3 := by omega
    rw [he1, he2, he3]

theorem replaceFirst_append_self (p l : List Char) : replaceFirstList p (p ++ l) = l := by
  cases p with
  | nil =>
    cases l with
    | nil => rfl
    | cons c rest =>
      rw [List.nil_append, replaceFirstList]
      have : ([] : List Char).isPrefixOf (c :: rest) = true := rfl
      rw [if_pos this]
      rfl
  | cons a p' =>
    show replaceFirstList (a :: p') (a :: (p' ++ l)) = l
    rw [replaceFirstList]
    have hpre : (a :: p').isPrefixOf (a :: (p' ++ l)) = true := by
      rw [List.isPrefixOf_iff_prefix]
      exact List.prefix_append (a :: p') l
    rw [if_pos hpre]
    show ((a :: p') ++ l).drop (a :: p').length = l
    rw [List.drop_left]

theorem replaceFirst_of_not_substr (p : List Char) (l : List Char) (hni : ¬ p <:+: l) :
    replaceFirstList p l = l := by
  induction l with
  | nil => rfl
  | cons c rest ih =>
    rw [replaceFirstList]
    have hp : p.isPrefixOf (c :: rest) = false := by
      by_contra hc
      have : p.isPrefixOf (c :: rest) = true := by
        cases hb : p.isPrefixOf (c :: rest)
        · exact absurd hb hc
        · rfl
      exact hni (List.isPrefixOf_iff_prefix.mp this).isInfix
    rw [if_neg (by simp [hp])]
    rw [ih (fun hinf => hni (List.infix_cons hinf))]

theorem stringMk_data (s : String) : String.mk s.data = s := by
  cases s; rfl

/-- Stripping the canonical prefix from a freshly produced address yields
the base64url body again — provided the body does not itself contain the
legacy prefix `aixp_`, whose first occurrence `_removeAddressPrefix` would
also delete. -/
theorem removeAddressPrefix_of_clean_body (body : String)
    (h2 : ¬ ("aixp_".data <:+: body.data)) :
    NaeuralBC._removeAddressPrefix (ADDR_PREFIX ++ body) = body := by
  unfold NaeuralBC._removeAddressPrefix ALLOWED_PREFIXES
  simp only [List.foldl_cons, List.foldl_nil]
  have e1 : replaceFirstList "0xai_".data (ADDR_PREFIX ++ body).data = body.data := by
    have hd : (ADDR_PREFIX ++ body).data = "0xai_".data ++ body.data := by
      rw [String.data_append]; rfl
    rw [hd, replaceFirst_append_self]
  rw [e1, replaceFirst_of_not_substr _ _ h2, stringMk_data]

/-- On a string containing neither recognised prefix,
`_removeAddressPrefix` is the identity (the `verify` path strips the
sender address once and `addressToECPublicKey` strips it again). -/
theorem removeAddressPrefix_of_no_hit (body : String)
    (h1 : ¬ ("0xai_".data <:+: body.data)) (h2 : ¬ ("aixp_".data <:+: body.data)) :
    NaeuralBC._removeAddressPrefix body = body := by
  unfold NaeuralBC._removeAddressPrefix ALLOWED_PREFIXES
  simp only [List.foldl_cons, List.foldl_nil]
  rw [replaceFirst_of_not_substr _ _ h1, stringMk_data,
    replaceFirst_of_not_substr _ _ h2, stringMk_data]

/-- Decoding an address produced by `addressFromPublicKey` recovers the key
bytes, for a compressed-format key whose base64url body is free of the
legacy prefix. -/
theorem addressCodec_roundTrip (pk : String)
    (h33 : (hexDecodeLoop pk.data).length = 33)
    (hhead : (hexDecodeLoop pk.data).head? = some 2 ∨ (hexDecodeLoop pk.data).head? = some 3)
    (hclean : ¬ ("aixp_".data <:+:
      (NaeuralBC.compressPublicKeyObject pk).data)) :
    NaeuralBC.addressToECPublicKey (NaeuralBC.addressFromPublicKey pk) =
      .ok (hexDecodeLoop pk.data) := by
  have hb : ∀ b ∈ hexDecodeLoop pk.data, b < 256 := hexDecodeLoop_lt _
  have h2 : (urlSafeBase64ToBase64 (NaeuralBC.compressPublicKeyObject pk)).data
      = b64Encode (hexDecodeLoop pk.data) := by
    show ((b64Encode (hexDecodeLoop pk.data)).map toUrlSafeChar).map fromUrlSafeChar = _
    rw [List.map_map]
    exact map_urlRound_b64Encode _ hb
  have h3 : b64Decode (b64Encode (hexDecodeLoop pk.data)) = some (hexDecodeLoop pk.data) :=
    b64Decode_b64Encode _ hb
  have h4 : hexDecodeLoop (String.mk (hexOfBytes (hexDecodeLoop pk.data))).data
      = hexDecodeLoop pk.data := by
    show hexDecodeLoop (hexOfBytes (hexDecodeLoop pk.data)) = _
    exact hexDecode_hexOfBytes _ hb
  unfold NaeuralBC.addressToECPublicKey NaeuralBC.addressFromPublicKey
  rw [removeAddressPrefix_of_clean_body _ hclean]
  simp only [h2, h3]
  unfold ecKeyFromPublic
  simp only [h4]
  rw [if_pos ⟨h33, hhead⟩]
/-! ## Claim C4: the address codec round trip -/

/-- The secp256k1 generator's compressed public key, lowercase hex — a
concrete well-formed key for witnesses. -/
def pkGen : String :=
  "0279be667ef9dcbbac55a06295ce870b07029bfcdb2dce28d959f2815b16f81798"

/-- A genuine compressed secp256k1 point whose URL-safe-base64 body
contains the legacy address prefix `aixp_` (body
`Agaixp_pTyGJMuHbEL31IeL2HPcHyGcFRl1SPnXNYvMI`). -/
def pkBad : String :=
  "0206a2c69fe94f218932e1db10bdf521e2f61cf707c86705465d523e75cd62f308"

/-- The secp256k1 base field order. -/
def secp256k1P : Nat := 2 ^ 256 - 2 ^ 32 - 977

/-- A square root of `x³ + 7` for the x-coordinate of `pkBad`, witnessing
that `pkBad` lies on the secp256k1 curve. -/
def secp256k1yBad : Nat :=
  12729492158419811008647570086527102656937901934276537967015160781300990524653

/-- Big-endian byte-list to natural number. -/
def bytesToNatBE (bs : List Nat) : Nat := bs.foldl (fun a b => 256 * a + b) 0

/-- C4 (amended): for every public key in compressed SEC1 hex form,
decoding the address produced from it (`addressToECPublicKey ∘
addressFromPublicKey`) yields back exactly the key's bytes — provided the
key's URL-safe-base64 body does not contain the legacy prefix `aixp_` as a
substring. (`_removeAddressPrefix` deletes the *first occurrence* of each
recognised prefix anywhere in the string, so a body containing `aixp_` is
corrupted; see the counterexample.) -/
theorem claim_C4 (pk : String)
    (h33 : (hexDecodeLoop pk.data).length = 33)
    (hhead : (hexDecodeLoop pk.data).head? = some 2 ∨ (hexDecodeLoop pk.data).head? = some 3)
    (hclean : ¬ ("aixp_".data <:+: (NaeuralBC.compressPublicKeyObject pk).data)) :
    NaeuralBC.addressToECPublicKey (NaeuralBC.addressFromPublicKey pk) =
      .ok (hexDecodeLoop pk.data) :=
  addressCodec_roundTrip pk h33 hhead hclean

/-- Witness for C4 at the secp256k1 generator key. -/
theorem claim_C4_witness :
    NaeuralBC.addressToECPublicKey (NaeuralBC.addressFromPublicKey pkGen) =
      .ok (hexDecodeLoop pkGen.data) :=
  claim_C4 pkGen (by decide) (by decide) (by decide)

/-- C4 counterexample: `pkBad` is a genuine compressed secp256k1 point (the
stated `y` squares to `x³ + 7` modulo the field order), yet decoding the
address produced from it fails instead of returning the key:
`_removeAddressPrefix` deletes the `aixp_` inside the base64url body, the
remaining 39 characters decode to 29 bytes, and `keyFromPublic` rejects
them. So `addressToECPublicKey` is not the inverse of
`addressFromPublicKey` on all compressed keys, as the claim states. -/
theorem claim_C4_counterexample :
    secp256k1yBad ^ 2 % secp256k1P =
      ((bytesToNatBE ((hexDecodeLoop pkBad.data).drop 1)) ^ 3 + 7) % secp256k1P ∧
    (hexDecodeLoop pkBad.data).length = 33 ∧
    (hexDecodeLoop pkBad.data).head? = some 2 ∧
    NaeuralBC.addressToECPublicKey (NaeuralBC.addressFromPublicKey pkBad) =
      .error .invalidKey :=
  ⟨by decide, by decide, by decide, by decide⟩

/-! ## Claim C6: heartbeats replace, not merge -/

/-- A `StateManager` as constructed: every store empty. -/
def emptyState : StateManager :=
  { hb := [], pending := [], universeMap := [], network := [], requests := [] }

/-- C6: after two heartbeats `H1` then `H2` for the same node, the cached
snapshot is exactly the one `H2` induces — `lastUpdate` is the time of the
`H2` update, the clock metadata is `H2`'s, and `data` is precisely the copy
of `H2.DATA` with no leftover from `H1`: replacement, not merge. -/
theorem claim_C6 (st : StateManager) (h1 h2 : HeartbeatInfo) (t1 t2 : Nat) (node : String)
    (hn1 : h1.EE_PAYLOAD_PATH.headD "undefined" = node)
    (hn2 : h2.EE_PAYLOAD_PATH.headD "undefined" = node) :
    ((st.nodeInfoUpdate h1 t1).nodeInfoUpdate h2 t2).getNodeInfo node =
      some { lastUpdate := some t2
             nodeTime := some { date := h2.EE_TIMESTAMP, utc := h2.EE_TIMEZONE }
             data := some (jsEntries h2.DATA) } := by
  unfold StateManager.nodeInfoUpdate StateManager.getNodeInfo
  simp only [hn1, hn2]
  exact lookup_setAssoc_self _ _ _

/-- Witness for C6: a full first heartbeat followed by a partial second one
leaves exactly the partial data. -/
theorem claim_C6_witness :
    ((emptyState.nodeInfoUpdate
        { EE_PAYLOAD_PATH := ["nodeA"], EE_TIMESTAMP := some (.str "t1"),
          EE_TIMEZONE := some (.str "UTC+3"),
          DATA := .obj [("pipelines", .obj [("p1", .obj [("config", .str "full"),
            ("plugins", .obj [("SIG", .obj [("i1", .obj [("config", .str "cfg")])])])])])] } 100).nodeInfoUpdate
        { EE_PAYLOAD_PATH := ["nodeA"], EE_TIMESTAMP := some (.str "t2"),
          EE_TIMEZONE := some (.str "UTC+2"),
          DATA := .obj [("pipelines", .obj [("p2", .obj [("config", .str "partial")])])] } 200).getNodeInfo
      "nodeA" =
      some { lastUpdate := some 200
             nodeTime := some { date := some (.str "t2"), utc := some (.str "UTC+2") }
             data := some [("pipelines", .obj [("p2", .obj [("config", .str "partial")])])] } :=
  claim_C6 emptyState _ _ 100 200 "nodeA" (by decide) (by decide)

/-! ## Claim C10: publish with a falsy message -/

/-- C10: `publish` with a falsy message resolves on the spot with
`{ data: { notification: 'Already closed.' } }` and leaves the client — in
particular the tracked-request index and the outbound publications —
untouched; nothing is signed. -/
theorem claim_C10 (client : NaeuralWebClient.WebClientState) (bc : NaeuralBC)
    (node : String) (message : Option Json)
    (extraWatches : List (List (Option Json))) (nowTime : Json) (sessionId : String)
    (hfalsy : ∀ m, message = some m → jsTruthy m = false) :
    NaeuralWebClient.publish client bc node message extraWatches nowTime sessionId =
      (client, .resolvedImmediately NaeuralWebClient.alreadyClosedResponse) ∧
    (NaeuralWebClient.publish client bc node message extraWatches nowTime sessionId).1.state.requests =
      client.state.requests ∧
    (NaeuralWebClient.publish client bc node message extraWatches nowTime sessionId).1.outbox =
      client.outbox := by
  cases message with
  | none => exact ⟨rfl, rfl, rfl⟩
  | some m =>
    have hm : jsTruthy m = false := hfalsy m rfl
    unfold NaeuralWebClient.publish
    simp [hm]

/-- Witness for C10 at `message = null`. -/
theorem claim_C10_witness :
    NaeuralWebClient.publish
      { initiator := "init-1", state := emptyState, outbox := [] }
      (NaeuralBC.loadIdentity (hexDecodeLoop pkGen.data)) "nodeA" (some .null) [] .null "sid-1" =
      ({ initiator := "init-1", state := emptyState, outbox := [] },
       .resolvedImmediately NaeuralWebClient.alreadyClosedResponse) :=
  (claim_C10 _ _ "nodeA" (some .null) [] .null "sid-1"
    (fun m hm => by cases hm; rfl)).1

/-! ## Claim C8: the edge-node marker stage -/

/-- C8: in the inbound pipeline, (a) a parsed message whose
`EE_PAYLOAD_PATH` marker is present has `markNodeAsSeen` applied for its
node at that stage — the resulting cache is `markNodeAsSeen` of the
incoming one for *every* fleet, so a node outside the configured fleet is
still recorded as seen, while the message itself is dropped by the later
fleet stage; (b) a message lacking the marker is dropped with the cache
untouched, for every fleet — the fleet-membership stage is never
reached. -/
theorem claim_C8 :
    (∀ (fleet formatterKeys : List String) (st : StateManager) (message : Json)
        (node : String) (rest : List Json) (now : Nat),
      jsGetField message "EE_PAYLOAD_PATH" = some (.arr (.str node :: rest)) →
      (NaeuralWebClient.processParsedMessage fleet formatterKeys st message now).1 =
        st.markNodeAsSeen node now ∧
      (node ∉ fleet →
        (NaeuralWebClient.processParsedMessage fleet formatterKeys st message now).2 =
          .ok none)) ∧
    (∀ (fleet formatterKeys : List String) (st : StateManager) (message : Json) (now : Nat),
      (∀ v, jsGetField message "EE_PAYLOAD_PATH" = some v → jsTruthy v = false) →
      NaeuralWebClient.processParsedMessage fleet formatterKeys st message now =
        (st, .ok none)) := by
  constructor
  · intro fleet formatterKeys st message node rest now hpath
    have hfe : NaeuralWebClient._messageIsFromEdgeNode st message now =
        (st.markNodeAsSeen node now, true) := by
      unfold NaeuralWebClient._messageIsFromEdgeNode
      simp [hpath, jsTruthy, NaeuralWebClient.jsIndex0, jsToPropertyKey]
    constructor
    · unfold NaeuralWebClient.processParsedMessage NaeuralWebClient._processSupervisorMessage
      rw [hfe]
      cases hfl : NaeuralWebClient._messageFromControlledFleet fleet message
      · simp [hfl]
      · cases hfmt : NaeuralWebClient._messageHasKnownFormat formatterKeys message with
        | ok b => cases b <;> simp [hfl, hfmt]
        | error e => simp [hfl, hfmt]
    · intro hnot
      have hfl : NaeuralWebClient._messageFromControlledFleet fleet message = false := by
        unfold NaeuralWebClient._messageFromControlledFleet
        simp [hpath, NaeuralWebClient.jsIndex0]
        simpa using hnot
      unfold NaeuralWebClient.processParsedMessage NaeuralWebClient._processSupervisorMessage
      rw [hfe]
      simp [hfl]
  · intro fleet formatterKeys st message now hfalsy
    unfold NaeuralWebClient.processParsedMessage NaeuralWebClient._messageIsFromEdgeNode
    cases hp : jsGetField message "EE_PAYLOAD_PATH" with
    | none => rfl
    | some v =>
      have hv : jsTruthy v = false := hfalsy v hp
      simp only [hp, hv]
      rfl

/-- Witness for C8: a message carrying a path for a node outside the fleet
is recorded as seen and dropped; a message without the marker leaves the
cache untouched. -/
theorem claim_C8_witness :
    (NaeuralWebClient.processParsedMessage ["other"] ["raw"] emptyState
        (.obj [("EE_PAYLOAD_PATH", .arr [.str "n1"])]) 5).1 =
      emptyState.markNodeAsSeen "n1" 5 ∧
    (NaeuralWebClient.processParsedMessage ["other"] ["raw"] emptyState
        (.obj [("EE_PAYLOAD_PATH", .arr [.str "n1"])]) 5).2 = .ok none ∧
    NaeuralWebClient.processParsedMessage ["other"] ["raw"] emptyState
        (.obj [("EE_ID", .str "n1")]) 5 = (emptyState, .ok none) :=
  ⟨(claim_C8.1 ["other"] ["raw"] emptyState _ "n1" [] 5 (by decide)).1,
   (claim_C8.1 ["other"] ["raw"] emptyState _ "n1" [] 5 (by decide)).2 (by decide),
   claim_C8.2 ["other"] ["raw"] emptyState _ 5 (by intro v hv; cases hv)⟩

/-! ## Claim C9: `_prepareMessage` does not mutate the caller's object -/

/-- C9: at heap level, `_prepareMessage` with the `'object'` return format
returns a *fresh* object whose fields are exactly the caller's fields
followed by the three signing fields, and the caller's object is unchanged
by the call — in particular it still has exactly its original fields and
carries no `EE_SIGN`, `EE_SENDER` or `EE_HASH`. -/
theorem claim_C9 (h : Heap) (bc : NaeuralBC) (inputRef : Nat) (sig : String)
    (fields : List (String × Json))
    (href : heapGet h inputRef = some fields)
    (hnd : (fields.map Prod.fst).Nodup)
    (hres : ∀ k ∈ fields.map Prod.fst, k ∉ NON_DATA_FIELDS) :
    heapGet (prepareMessageOnHeap h bc inputRef sig).1 inputRef = some fields ∧
    (prepareMessageOnHeap h bc inputRef sig).2 ≠ inputRef ∧
    heapGet (prepareMessageOnHeap h bc inputRef sig).1
        (prepareMessageOnHeap h bc inputRef sig).2 =
      some (fields ++ [(EE_SIGN, .str sig), (EE_SENDER, .str bc.getAddress),
        (EE_HASH, .str (Digest.ofString (stableStringify (.obj fields))).hexStr)]) := by
  have hlt : inputRef < h.length := by
    by_contra hge
    push_neg at hge
    rw [heapGet, List.getElem?_eq_none hge] at href
    cases href
  have hget1 : heapGet (h ++ [[]]) inputRef = some fields := by
    rw [heapGet, List.getElem?_append, if_pos hlt]
    exact href
  have hassign1 : assignOnto [] fields = fields := by
    have := foldl_setAssoc_disjoint fields [] hnd (by intro k _ hk; simp at hk)
    simpa [assignOnto] using this
  have htriple : assignOnto fields
      [(EE_SIGN, Json.str sig), (EE_SENDER, .str bc.getAddress),
       (EE_HASH, .str (Digest.ofString (stableStringify (.obj fields))).hexStr)] =
      fields ++ [(EE_SIGN, .str sig), (EE_SENDER, .str bc.getAddress),
       (EE_HASH, .str (Digest.ofString (stableStringify (.obj fields))).hexStr)] := by
    apply foldl_setAssoc_disjoint
    · simp [EE_SIGN, EE_SENDER, EE_HASH]
    · intro k hk
      simp only [List.map_cons, List.map_nil, List.mem_cons, List.mem_singleton] at hk
      intro hmem
      have hk2 := hres k hmem
      simp only [NON_DATA_FIELDS, List.mem_cons, List.mem_singleton] at hk2
      push_neg at hk2
      rcases hk with rfl | rfl | rfl | h0
      · exact hk2.1 rfl
      · exact hk2.2.1 rfl
      · exact hk2.2.2.1 rfl
      · cases h0
  have hpre : prepareMessageOnHeap h bc inputRef sig =
      (heapSet (h ++ [[]]) h.length
        (fields ++ [(EE_SIGN, Json.str sig), (EE_SENDER, .str bc.getAddress),
          (EE_HASH, .str (Digest.ofString (stableStringify (.obj fields))).hexStr)]),
       h.length) := by
    unfold prepareMessageOnHeap
    simp only [hget1, Option.getD_some, NaeuralBC._getHash, hassign1, htriple]
  refine ⟨?_, ?_, ?_⟩
  · rw [hpre, heapGet, heapSet, List.getElem?_set_ne (by omega)]
    exact hget1
  · rw [hpre]
    show h.length ≠ inputRef
    omega
  · rw [hpre, heapGet, heapSet, List.getElem?_set_self (by simp)]

/-- Witness for C9: a one-field object is extended, not mutated. -/
theorem claim_C9_witness :
    heapGet (prepareMessageOnHeap [[("PAYLOAD", Json.num 7)]]
        (NaeuralBC.loadIdentity (hexDecodeLoop pkGen.data)) 0 "sigX").1 0 =
      some [("PAYLOAD", Json.num 7)] ∧
    (prepareMessageOnHeap [[("PAYLOAD", Json.num 7)]]
        (NaeuralBC.loadIdentity (hexDecodeLoop pkGen.data)) 0 "sigX").2 ≠ 0 ∧
    heapGet (prepareMessageOnHeap [[("PAYLOAD", Json.num 7)]]
        (NaeuralBC.loadIdentity (hexDecodeLoop pkGen.data)) 0 "sigX").1
        (prepareMessageOnHeap [[("PAYLOAD", Json.num 7)]]
          (NaeuralBC.loadIdentity (hexDecodeLoop pkGen.data)) 0 "sigX").2 =
      some [("PAYLOAD", Json.num 7), (EE_SIGN, .str "sigX"),
        (EE_SENDER, .str (NaeuralBC.loadIdentity (hexDecodeLoop pkGen.data)).getAddress),
        (EE_HASH, .str (Digest.ofString
          (stableStringify (.obj [("PAYLOAD", Json.num 7)]))).hexStr)] :=
  claim_C9 [[("PAYLOAD", Json.num 7)]] (NaeuralBC.loadIdentity (hexDecodeLoop pkGen.data))
    0 "sigX" [("PAYLOAD", Json.num 7)] (by decide) (by decide) (by decide)

/-! ## Claim C2: `verify` and unsigned input -/

/-- C2 (code bug): `verify` on a message that carries a (truthy) sender
address but no `EE_SIGN` field rejects with a `TypeError` instead of
returning `false`: on that path `urlSafeBase64ToBase64(signatureB64)` calls
`.replace` on `undefined`. This contradicts the function's own
documentation (“If the message is incorrectly signed, will return false”)
and the spec's “`verify` never throws”. -/
theorem claim_C2 :
    NaeuralBC.verify (some (Json.obj
      [("EE_SENDER", .str "0xai_A"), ("EE_HASH", .str "deadbeef")])) =
      .error .typeError := by
  decide

/-! ## Claim C7: totality of the cache lookups -/

/-- The loop of `getRunningInstanceConfig` returns `null` when every plugin
map is a non-null value without the instance. -/
theorem findInstanceIn_none (plugins : Json) (iid : String) (keys : List String)
    (h : ∀ sig ∈ keys, ∃ pm, jsGetField plugins sig = some pm ∧ pm ≠ .null ∧
      jsGetField pm iid = none) :
    findInstanceIn plugins iid keys = .ok none := by
  induction keys with
  | nil => rfl
  | cons sig rest ih =>
    obtain ⟨pm, hpm, hnn, hno⟩ := h sig (by simp)
    have hprop : jsProp pm iid = .ok (jsGetField pm iid) := by
      cases pm <;> simp_all [jsProp]
    rw [findInstanceIn, hpm]
    simp only [hprop, hno]
    exact ih (fun s hs => h s (by simp [hs]))

theorem lookup_mem_of_mem_keys {α : Type} (l : List (String × α)) (k : String)
    (h : k ∈ l.map Prod.fst) : ∃ v, l.lookup k = some v ∧ (k, v) ∈ l := by
  induction l with
  | nil => simp at h
  | cons kv rest ih =>
    obtain ⟨k', v'⟩ := kv
    by_cases he : k = k'
    · subst he
      exact ⟨v', by simp [List.lookup], by simp⟩
    · have hmem : k ∈ rest.map Prod.fst := by
        simpa [he] using h
      obtain ⟨v, hv, hm⟩ := ih hmem
      have hb : (k == k') = false := beq_eq_false_iff_ne.mpr he
      exact ⟨v, by simp [List.lookup, hb, hv], by simp [hm]⟩

theorem jsGetField_some_obj {p : Json} {k : String} {v : Json}
    (h : jsGetField p k = some v) : ∃ fs, p = .obj fs := by
  cases p <;> simp_all [jsGetField]

/-- C7 (amended): the cache lookups return `null`/`none` — without
throwing — on an unknown node, an unknown pipeline, and (for the instance
lookup) an unknown instance when every pipeline plugin map is a non-null
object not containing it. (`getNodeInfo` is `Option`-valued by
construction.) The original claim's remaining case — a pipeline entry
*without* a `plugins` map — instead throws a `TypeError` from
`Object.keys(undefined)`; see the counterexample. -/
theorem claim_C7 :
    (∀ (st : StateManager) (node pid iid : String),
      st.getNodeInfo node = none →
      st.getRunningPipelineConfig node pid = .ok none ∧
      st.getRunningInstanceConfig node pid iid = .ok none) ∧
    (∀ (st : StateManager) (node pid iid : String) (p : Json),
      st.pipelinesOf node = some p → jsGetField p pid = none →
      st.getRunningPipelineConfig node pid = .ok none ∧
      st.getRunningInstanceConfig node pid iid = .ok none) ∧
    (∀ (st : StateManager) (node pid iid : String) (p entry : Json)
        (pl : List (String × Json)),
      st.pipelinesOf node = some p → jsGetField p pid = some entry →
      entry ≠ .null → jsGetField entry "plugins" = some (.obj pl) →
      (∀ kv ∈ pl, kv.2 ≠ Json.null ∧ jsGetField kv.2 iid = none) →
      st.getRunningInstanceConfig node pid iid = .ok none) := by
  refine ⟨?_, ?_, ?_⟩
  · intro st node pid iid hnone
    have hp : st.pipelinesOf node = none := by
      unfold StateManager.pipelinesOf
      rw [hnone]
    constructor
    · unfold StateManager.getRunningPipelineConfig
      rw [hp]
    · unfold StateManager.getRunningInstanceConfig
      rw [hp]
  · intro st node pid iid p hpl hno
    constructor
    · unfold StateManager.getRunningPipelineConfig
      simp only [hpl]
      cases ht : jsTruthy p
      · simp [ht]
      · simp only [ht, if_true, hno]
    · unfold StateManager.getRunningInstanceConfig
      simp only [hpl]
      cases ht : jsTruthy p
      · simp [ht]
      · simp only [ht, if_true, hno]
  · intro st node pid iid p entry pl hpl hentry hnn hplug hall
    obtain ⟨fs, rfl⟩ := jsGetField_some_obj hentry
    unfold StateManager.getRunningInstanceConfig
    have hprop : jsProp entry "plugins" = .ok (some (.obj pl)) := by
      cases entry <;> simp_all [jsProp]
    simp only [hpl, jsTruthy, if_true, hentry]
    rw [hprop]
    show findInstanceIn (Json.obj pl) iid (pl.map Prod.fst) = Except.ok none
    apply findInstanceIn_none
    intro sig hs
    obtain ⟨v, hv, hm⟩ := lookup_mem_of_mem_keys pl sig hs
    exact ⟨v, hv, (hall (sig, v) hm).1, (hall (sig, v) hm).2⟩

/-- A cache holding one node with one pipeline whose entry carries a
`config` and a one-instance `plugins` map. -/
def c7State : StateManager :=
  { emptyState with hb := [("n1",
      { lastUpdate := some 1
        nodeTime := none
        data := some [("pipelines", .obj [("p1", .obj
          [("config", .str "cfg"),
           ("plugins", .obj [("SIG", .obj [("i1", .obj [("config", .str "icfg")])])])])])] })] }

/-- Witness for C7 at a concrete cache: unknown node, unknown pipeline, and
unknown instance all yield `null` without throwing. -/
theorem claim_C7_witness :
    c7State.getRunningPipelineConfig "missing" "p1" = .ok none ∧
    c7State.getRunningInstanceConfig "n1" "nope" "i1" = .ok none ∧
    c7State.getRunningInstanceConfig "n1" "p1" "i9" = .ok none :=
  ⟨(claim_C7.1 c7State "missing" "p1" "i1" (by decide)).1,
   (claim_C7.2.1 c7State "n1" "nope" "i1"
      (.obj [("p1", .obj [("config", .str "cfg"),
        ("plugins", .obj [("SIG", .obj [("i1", .obj [("config", .str "icfg")])])])])])
      (by decide) (by decide)).2,
   claim_C7.2.2 c7State "n1" "p1" "i9"
      (.obj [("p1", .obj [("config", .str "cfg"),
        ("plugins", .obj [("SIG", .obj [("i1", .obj [("config", .str "icfg")])])])])])
      (.obj [("config", .str "cfg"),
        ("plugins", .obj [("SIG", .obj [("i1", .obj [("config", .str "icfg")])])])])
      [("SIG", .obj [("i1", .obj [("config", .str "icfg")])])]
      (by decide) (by decide) (by decide) (by decide) (by decide)⟩

/-- A cache whose only pipeline entry has a `config` but no `plugins`
map. -/
def c7BugState : StateManager :=
  { emptyState with hb := [("n1",
      { lastUpdate := some 1
        nodeTime := none
        data := some [("pipelines", .obj [("p1", .obj [("config", .str "cfg")])])] })] }

/-- C7 counterexample: on a cached pipeline without a `plugins` map,
`getRunningInstanceConfig` throws a `TypeError`
(`Object.keys(pipelines[pipelineId].plugins)` with `plugins` undefined)
instead of returning `null` as the claim states. -/
theorem claim_C7_counterexample :
    c7BugState.getRunningInstanceConfig "n1" "p1" "i1" = .error .typeError := by
  decide

/-! ## Claim C3: the two independent checks of `verify` -/

/-- The non-signing entries of an envelope, as `verify` collects them
(`Object.entries` filtered by `NON_DATA_FIELDS`). -/
def strippedEntries (j : Json) : List (String × Json) :=
  (jsEntries j).filter (fun kv => !(NON_DATA_FIELDS.contains kv.1))

/-- The canonical content hash `verify` recomputes: the digest of the
stable stringification of the envelope without its signing fields. -/
def contentHash (j : Json) : Digest :=
  .ofString (stableStringify (.obj (strippedEntries j)))

/-- Reduction of a bind on an `ok` value (the do-notation's `Bind.bind`). -/
theorem exceptBind_ok {ε α β : Type} (a : α) (f : α → Except ε β) :
    (Except.ok a : Except ε α) >>= f = f a := rfl

/-- `pure` on `Except` is `ok`. -/
theorem exceptPure_eq {ε α : Type} (a : α) : (pure a : Except ε α) = .ok a := rfl

/-- Evaluation of `verify` on a well-formed envelope: the result is the
conjunction of the recomputed-hash comparison and the signature check. -/
theorem verify_eval (l : List (String × Json)) (sig sender h : String) (pub : List Nat)
    (hsig : l.lookup EE_SIGN = some (.str sig))
    (hsender : l.lookup EE_SENDER = some (.str sender))
    (hsne : sender ≠ "")
    (hhash : l.lookup EE_HASH = some (.str h))
    (hdec : NaeuralBC.addressToECPublicKey (NaeuralBC._removeAddressPrefix sender) =
      .ok pub) :
    NaeuralBC.verify (some (.obj l)) =
      .ok (((contentHash (.obj l)).hexStr == h) &&
           ecVerify (.ofDigestBytes (contentHash (.obj l))) sig pub) := by
  have e1 : jsProp (Json.obj l) EE_SIGN = .ok (some (.str sig)) := by
    simp [jsProp, jsGetField, hsig]
  have e2 : jsProp (Json.obj l) EE_SENDER = .ok (some (.str sender)) := by
    simp [jsProp, jsGetField, hsender]
  have e3 : jsProp (Json.obj l) EE_HASH = .ok (some (.str h)) := by
    simp [jsProp, jsGetField, hhash]
  have e4 : jsTruthy (.str sender) = true := by
    simp [jsTruthy, hsne]
  unfold NaeuralBC.verify
  simp only [e1, e2, e3, e4, hdec, exceptBind_ok, exceptPure_eq, if_true]
  rfl

/-- C3: on a well-formed envelope — an object whose `EE_SIGN` is a string,
whose `EE_SENDER` is a non-empty string that decodes to a public key, and
whose `EE_HASH` is a string — `verify` returns exactly the conjunction of
the two independent checks: the canonical hash recomputed from all fields
except `EE_SIGN`/`EE_SENDER`/`EE_HASH` must equal the carried `EE_HASH`,
and the ECDSA signature must verify against the key recovered from
`EE_SENDER`. In particular an envelope whose carried hash does not match
returns `false` even if the signature is valid, and one whose signature
fails returns `false` even if the hash matches. -/
theorem claim_C3 (l : List (String × Json)) (sig sender h : String) (pub : List Nat)
    (hsig : l.lookup EE_SIGN = some (.str sig))
    (hsender : l.lookup EE_SENDER = some (.str sender))
    (hsne : sender ≠ "")
    (hhash : l.lookup EE_HASH = some (.str h))
    (hdec : NaeuralBC.addressToECPublicKey (NaeuralBC._removeAddressPrefix sender) =
      .ok pub) :
    NaeuralBC.verify (some (.obj l)) =
      .ok (((contentHash (.obj l)).hexStr == h) &&
           ecVerify (.ofDigestBytes (contentHash (.obj l))) sig pub) ∧
    (((contentHash (.obj l)).hexStr == h) = false →
      NaeuralBC.verify (some (.obj l)) = .ok false) ∧
    (ecVerify (.ofDigestBytes (contentHash (.obj l))) sig pub = false →
      NaeuralBC.verify (some (.obj l)) = .ok false) := by
  have hmain := verify_eval l sig sender h pub hsig hsender hsne hhash hdec
  refine ⟨hmain, ?_, ?_⟩
  · intro hfalse
    rw [hmain, hfalse, Bool.false_and]
  · intro hfalse
    rw [hmain, hfalse, Bool.and_false]

/-- The canonical address of the `pkGen` identity. -/
def c3Sender : String := NaeuralBC.addressFromPublicKey pkGen

/-- A concrete envelope with all three signing fields present. -/
def c3Env : List (String × Json) :=
  [("ACTION", .str "STATUS"), (EE_SIGN, .str "s1"),
   (EE_SENDER, .str c3Sender), (EE_HASH, .str "h1")]

/-- Witness for C3 at a concrete envelope. -/
theorem claim_C3_witness :
    NaeuralBC.verify (some (.obj c3Env)) =
      .ok (((contentHash (.obj c3Env)).hexStr == "h1") &&
           ecVerify (.ofDigestBytes (contentHash (.obj c3Env))) "s1"
             (hexDecodeLoop pkGen.data)) ∧
    (((contentHash (.obj c3Env)).hexStr == "h1") = false →
      NaeuralBC.verify (some (.obj c3Env)) = .ok false) ∧
    (ecVerify (.ofDigestBytes (contentHash (.obj c3Env))) "s1"
        (hexDecodeLoop pkGen.data) = false →
      NaeuralBC.verify (some (.obj c3Env)) = .ok false) :=
  claim_C3 c3Env "s1" c3Sender "h1" (hexDecodeLoop pkGen.data)
    (by decide) (by decide) (by decide) (by decide) (by decide)

/-! ## Claim C1: sign/verify soundness -/

/-- Decoding a bare base64url key body (as `verify` passes it to
`addressToECPublicKey` after its own prefix strip) recovers the compressed
key bytes, provided the body contains neither recognised prefix as a
substring. -/
theorem addressToECPublicKey_of_body (pub : List Nat)
    (hbytes : ∀ b ∈ pub, b < 256) (hlen : pub.length = 33)
    (hhead : pub.head? = some 2 ∨ pub.head? = some 3)
    (h0 : ¬ ("0xai_".data <:+:
      (NaeuralBC.compressPublicKeyObject (String.mk (hexOfBytes pub))).data))
    (ha : ¬ ("aixp_".data <:+:
      (NaeuralBC.compressPublicKeyObject (String.mk (hexOfBytes pub))).data)) :
    NaeuralBC.addressToECPublicKey
      (NaeuralBC.compressPublicKeyObject (String.mk (hexOfBytes pub))) = .ok pub := by
  have hdec0 : hexDecodeLoop (String.mk (hexOfBytes pub)).data = pub := by
    show hexDecodeLoop (hexOfBytes pub) = pub
    exact hexDecode_hexOfBytes _ hbytes
  have h2 : (urlSafeBase64ToBase64
      (NaeuralBC.compressPublicKeyObject (String.mk (hexOfBytes pub)))).data =
      b64Encode pub := by
    show ((b64Encode (hexDecodeLoop (String.mk (hexOfBytes pub)).data)).map
        toUrlSafeChar).map fromUrlSafeChar = b64Encode pub
    rw [hdec0, List.map_map]
    exact map_urlRound_b64Encode _ hbytes
  have h3 : b64Decode (b64Encode pub) = some pub := b64Decode_b64Encode _ hbytes
  unfold NaeuralBC.addressToECPublicKey
  rw [removeAddressPrefix_of_no_hit _ h0 ha]
  simp only [h2, h3]
  unfold ecKeyFromPublic
  simp only [hdec0]
  rw [if_pos ⟨hlen, hhead⟩]

/-- A prefixed address is never the empty string. -/
theorem addrPrefix_append_ne_empty (x : String) : ADDR_PREFIX ++ x ≠ "" := by
  intro hx
  have := congrArg String.data hx
  rw [String.data_append] at this
  simp [ADDR_PREFIX] at this

/-- C1 (amended): for every identity loaded from a compressed public key
whose base64url body contains neither recognised address prefix as a
substring, and every plain JSON *object* message `m` whose top-level keys
are distinct and include none of `EE_SIGN`/`EE_SENDER`/`EE_HASH`,
`verify` accepts the JSON produced by `sign(m)`. The claim's quantification
over *string* messages fails in the code — `Object.assign({}, m, …)`
spreads a string into character-indexed properties, so the recomputed hash
never matches; see the counterexample. -/
theorem claim_C1 (pub : List Nat) (fs : List (String × Json))
    (hbytes : ∀ b ∈ pub, b < 256)
    (hlen : pub.length = 33)
    (hhead : pub.head? = some 2 ∨ pub.head? = some 3)
    (h0 : ¬ ("0xai_".data <:+:
      (NaeuralBC.compressPublicKeyObject (String.mk (hexOfBytes pub))).data))
    (ha : ¬ ("aixp_".data <:+:
      (NaeuralBC.compressPublicKeyObject (String.mk (hexOfBytes pub))).data))
    (hnd : (fs.map Prod.fst).Nodup)
    (hres : ∀ k ∈ fs.map Prod.fst, k ∉ NON_DATA_FIELDS) :
    ((NaeuralBC.sign (NaeuralBC.loadIdentity pub) (.obj fs) "json") >>= fun env =>
      NaeuralBC.verify (some env)) = .ok true := by
  have hsignEq : NaeuralBC.sign (NaeuralBC.loadIdentity pub) (.obj fs) "json" =
      .ok (.obj (jsAssign (jsAssign [] (.obj fs)) (.obj
        [(EE_SIGN, .str (sigOf pub (.ofDigestBytes
            (Digest.ofString (stableStringify (.obj fs)))))),
         (EE_SENDER, .str (NaeuralBC.loadIdentity pub).getAddress),
         (EE_HASH, .str (Digest.ofString (stableStringify (.obj fs))).hexStr)]))) := rfl
  have hstep1 : jsAssign [] (.obj fs) = fs := by
    have hd := foldl_setAssoc_disjoint fs [] hnd (by intro k _ hk; simp at hk)
    simpa [jsAssign, jsEntries] using hd
  have hstep2 : ∀ (v1 v2 v3 : Json),
      jsAssign fs (.obj [(EE_SIGN, v1), (EE_SENDER, v2), (EE_HASH, v3)]) =
        fs ++ [(EE_SIGN, v1), (EE_SENDER, v2), (EE_HASH, v3)] := by
    intro v1 v2 v3
    apply foldl_setAssoc_disjoint
    · simp only [jsEntries, List.map_cons, List.map_nil]
      decide
    · intro k hk hmem
      have hk2 := hres k hmem
      simp only [jsEntries, List.map_cons, List.map_nil, List.mem_cons,
        List.mem_singleton] at hk
      simp only [NON_DATA_FIELDS, List.mem_cons, List.mem_singleton] at hk2
      push_neg at hk2
      rcases hk with rfl | rfl | rfl | h9
      · exact hk2.1 rfl
      · exact hk2.2.1 rfl
      · exact hk2.2.2.1 rfl
      · cases h9
  have hSIGN : EE_SIGN ∉ fs.map Prod.fst := by
    intro hmem
    exact hres _ hmem (by simp [NON_DATA_FIELDS])
  have hSENDER : EE_SENDER ∉ fs.map Prod.fst := by
    intro hmem
    exact hres _ hmem (by simp [NON_DATA_FIELDS])
  have hHASH : EE_HASH ∉ fs.map Prod.fst := by
    intro hmem
    exact hres _ hmem (by simp [NON_DATA_FIELDS])
  have hb1 : (EE_SIGN == EE_SIGN) = true := by decide
  have hb2 : (EE_SENDER == EE_SIGN) = false := by decide
  have hb3 : (EE_SENDER == EE_SENDER) = true := by decide
  have hb4 : (EE_HASH == EE_SIGN) = false := by decide
  have hb5 : (EE_HASH == EE_SENDER) = false := by decide
  have hb6 : (EE_HASH == EE_HASH) = true := by decide
  rw [hsignEq, exceptBind_ok, hstep1, hstep2]
  have hsig : (fs ++ [(EE_SIGN, Json.str (sigOf pub (.ofDigestBytes
        (Digest.ofString (stableStringify (.obj fs)))))),
      (EE_SENDER, .str (NaeuralBC.loadIdentity pub).getAddress),
      (EE_HASH, .str (Digest.ofString (stableStringify (.obj fs))).hexStr)]).lookup EE_SIGN =
      some (.str (sigOf pub (.ofDigestBytes
        (Digest.ofString (stableStringify (.obj fs)))))) := by
    rw [lookup_append_of_not_mem _ _ _ hSIGN]
    simp [List.lookup, hb1]
  have hsender : (fs ++ [(EE_SIGN, Json.str (sigOf pub (.ofDigestBytes
        (Digest.ofString (stableStringify (.obj fs)))))),
      (EE_SENDER, .str (NaeuralBC.loadIdentity pub).getAddress),
      (EE_HASH, .str (Digest.ofString (stableStringify (.obj fs))).hexStr)]).lookup EE_SENDER =
      some (.str (NaeuralBC.loadIdentity pub).getAddress) := by
    rw [lookup_append_of_not_mem _ _ _ hSENDER]
    simp [List.lookup, hb2, hb3]
  have hhash : (fs ++ [(EE_SIGN, Json.str (sigOf pub (.ofDigestBytes
        (Digest.ofString (stableStringify (.obj fs)))))),
      (EE_SENDER, .str (NaeuralBC.loadIdentity pub).getAddress),
      (EE_HASH, .str (Digest.ofString (stableStringify (.obj fs))).hexStr)]).lookup EE_HASH =
      some (.str (Digest.ofString (stableStringify (.obj fs))).hexStr) := by
    rw [lookup_append_of_not_mem _ _ _ hHASH]
    simp [List.lookup, hb4, hb5, hb6]
  have hsne : (NaeuralBC.loadIdentity pub).getAddress ≠ "" :=
    addrPrefix_append_ne_empty _
  have hdec : NaeuralBC.addressToECPublicKey
      (NaeuralBC._removeAddressPrefix (NaeuralBC.loadIdentity pub).getAddress) = .ok pub := by
    have hstrip : NaeuralBC._removeAddressPrefix (NaeuralBC.loadIdentity pub).getAddress =
        NaeuralBC.compressPublicKeyObject (String.mk (hexOfBytes pub)) := by
      show NaeuralBC._removeAddressPrefix
        (ADDR_PREFIX ++ NaeuralBC.compressPublicKeyObject (String.mk (hexOfBytes pub))) = _
      exact removeAddressPrefix_of_clean_body _ ha
    rw [hstrip]
    exact addressToECPublicKey_of_body pub hbytes hlen hhead h0 ha
  rw [verify_eval _ _ _ _ pub hsig hsender hsne hhash hdec]
  have hfilter : strippedEntries (.obj (fs ++ [(EE_SIGN, Json.str (sigOf pub (.ofDigestBytes
        (Digest.ofString (stableStringify (.obj fs)))))),
      (EE_SENDER, .str (NaeuralBC.loadIdentity pub).getAddress),
      (EE_HASH, .str (Digest.ofString (stableStringify (.obj fs))).hexStr)])) = fs := by
    unfold strippedEntries jsEntries
    rw [List.filter_append]
    have hf1 : fs.filter (fun kv => !(NON_DATA_FIELDS.contains kv.1)) = fs := by
      apply List.filter_eq_self.mpr
      intro kv hkv
      have hni := hres kv.1 (List.mem_map_of_mem _ hkv)
      simpa using hni
    rw [hf1]
    simp [NON_DATA_FIELDS, EE_SIGN, EE_SENDER, EE_HASH]
  have hch : contentHash (.obj (fs ++ [(EE_SIGN, Json.str (sigOf pub (.ofDigestBytes
        (Digest.ofString (stableStringify (.obj fs)))))),
      (EE_SENDER, .str (NaeuralBC.loadIdentity pub).getAddress),
      (EE_HASH, .str (Digest.ofString (stableStringify (.obj fs))).hexStr)])) =
      Digest.ofString (stableStringify (.obj fs)) := by
    unfold contentHash
    rw [hfilter]
  rw [hch]
  simp [ecVerify]

/-- Witness for C1: the generator-key identity signs a two-field object and
`verify` accepts the result. -/
theorem claim_C1_witness :
    ((NaeuralBC.sign (NaeuralBC.loadIdentity (hexDecodeLoop pkGen.data))
        (.obj [("SERVER", .str "gts-test"), ("COMMAND", .str "UPDATE_CONFIG")]) "json") >>=
      fun env => NaeuralBC.verify (some env)) = .ok true :=
  claim_C1 (hexDecodeLoop pkGen.data)
    [("SERVER", .str "gts-test"), ("COMMAND", .str "UPDATE_CONFIG")]
    (by decide) (by decide) (by decide) (by decide) (by decide) (by decide) (by decide)

/-- C1 counterexample: signing the *string* `"a"` produces an envelope that
`verify` rejects — `Object.assign({}, "a", …)` spreads the string into the
character-indexed object `{"0":"a"}`, whose canonical hash differs from the
hash of `"a"` carried in `EE_HASH`, so `verify(sign("a"))` is `false`, not
`true` as the claim states for string messages. -/
theorem claim_C1_counterexample :
    ((NaeuralBC.sign (NaeuralBC.loadIdentity (hexDecodeLoop pkGen.data))
        (.str "a") "json") >>=
      fun env => NaeuralBC.verify (some env)) = .ok false := by
  decide

/-! ## Claim C5: canonical hash stability under key order -/

theorem char_eq_of_toNat_eq {a b : Char} (h : a.toNat = b.toNat) : a = b := by
  apply Char.eq_of_val_eq
  apply UInt32.eq_of_val_eq
  exact Fin.ext h

theorem string_eq_of_data_eq {a b : String} (h : a.data = b.data) : a = b := by
  cases a; cases b; cases h; rfl

theorem charListLe_total : ∀ (a b : List Char),
    charListLe a b = true ∨ charListLe b a = true
  | [], _ => Or.inl rfl
  | _ :: _, [] => Or.inr rfl
  | x :: xs, y :: ys => by
    rw [charListLe, charListLe]
    by_cases h1 : x.toNat < y.toNat
    · left; simp [h1]
    · by_cases h2 : y.toNat < x.toNat
      · right; simp [h2]
      · rcases charListLe_total xs ys with h | h
        · left; simp [h1, h2, h]
        · right; simp [h1, h2, h]

theorem charListLe_trans : ∀ (a b c : List Char),
    charListLe a b = true → charListLe b c = true → charListLe a c = true
  | [], _, _ => by intro _ _; rfl
  | _ :: _, [], _ => by intro h _; rw [charListLe] at h; cases h
  | _ :: _, _ :: _, [] => by intro _ h; rw [charListLe] at h; cases h
  | x :: xs, y :: ys, z :: zs => by
    intro h1 h2
    rw [charListLe] at h1 h2 ⊢
    by_cases hxz : x.toNat < z.toNat
    · simp [hxz]
    · by_cases hzx : z.toNat < x.toNat
      · exfalso
        by_cases hxy : x.toNat < y.toNat <;> by_cases hyx : y.toNat < x.toNat <;>
          by_cases hyz : y.toNat < z.toNat <;> by_cases hzy : z.toNat < y.toNat <;>
          simp_all <;> omega
      · rw [if_neg hxz, if_neg hzx]
        by_cases hxy : x.toNat < y.toNat
        · exfalso
          have hzy : z.toNat < y.toNat := by omega
          have hyz : ¬ y.toNat < z.toNat := by omega
          simp [hyz, hzy] at h2
        · by_cases hyx : y.toNat < x.toNat
          · simp [hxy, hyx] at h1
          · have h1x : charListLe xs ys = true := by simpa [hxy, hyx] using h1
            have hyz : ¬ y.toNat < z.toNat := by omega
            have hzy2 : ¬ z.toNat < y.toNat := by omega
            have h2x : charListLe ys zs = true := by simpa [hyz, hzy2] using h2
            exact charListLe_trans xs ys zs h1x h2x

theorem charListLe_antisymm : ∀ (a b : List Char),
    charListLe a b = true → charListLe b a = true → a = b
  | [], [] => by intro _ _; rfl
  | [], _ :: _ => by intro _ h; rw [charListLe] at h; cases h
  | _ :: _, [] => by intro h _; rw [charListLe] at h; cases h
  | x :: xs, y :: ys => by
    intro h1 h2
    rw [charListLe] at h1 h2
    by_cases hxy : x.toNat < y.toNat <;> by_cases hyx : y.toNat < x.toNat <;>
      simp_all
    · omega
    · have hxy2 : x = y := char_eq_of_toNat_eq (by omega)
      subst hxy2
      exact ⟨rfl, charListLe_antisymm xs ys h1 h2⟩

instance : IsTotal (String × String) fieldLe :=
  ⟨fun a b => by
    unfold fieldLe
    rcases charListLe_total a.1.data b.1.data with h | h
    · exact Or.inl h
    · exact Or.inr h⟩

instance : IsTrans (String × String) fieldLe :=
  ⟨fun _ _ _ h1 h2 => charListLe_trans _ _ _ h1 h2⟩

/-- The keys produced by `stringifyFields` are the original keys. -/
theorem stringifyFields_fst : ∀ (l : List (String × Json)),
    (stringifyFields l).map Prod.fst = l.map Prod.fst
  | [] => rfl
  | (k, v) :: rest => by
    rw [stringifyFields, List.map_cons, List.map_cons, stringifyFields_fst rest]

/-- `stringifyFields` is the natural map on pairs. -/
theorem stringifyFields_eq_map : ∀ (l : List (String × Json)),
    stringifyFields l = l.map (fun kv => (kv.1, stableStringify kv.2))
  | [] => rfl
  | (k, v) :: rest => by
    rw [stringifyFields, List.map_cons, stringifyFields_eq_map rest]

/-- Sorting serialized fields by key gives the same list for any two
permutations of a duplicate-free field list. -/
theorem insertionSort_eq_of_perm (l1 l2 : List (String × String))
    (hperm : l1.Perm l2) (hnd : (l1.map Prod.fst).Nodup) :
    List.insertionSort fieldLe l1 = List.insertionSort fieldLe l2 := by
  haveI : IsAntisymm (String × String) (fun a b => fieldLe a b ∧ a.1 ≠ b.1) :=
    ⟨fun a b h1 h2 => by
      have hk : a.1 = b.1 := by
        have := charListLe_antisymm a.1.data b.1.data h1.1 h2.1
        exact string_eq_of_data_eq this
      exact absurd hk h1.2⟩
  have hp1 : (List.insertionSort fieldLe l1).Perm l1 := List.perm_insertionSort fieldLe l1
  have hp2 : (List.insertionSort fieldLe l2).Perm l2 := List.perm_insertionSort fieldLe l2
  have hperm12 : (List.insertionSort fieldLe l1).Perm (List.insertionSort fieldLe l2) :=
    (hp1.trans hperm).trans hp2.symm
  have hnd1 : ((List.insertionSort fieldLe l1).map Prod.fst).Nodup :=
    ((hp1.map Prod.fst).nodup_iff).mpr hnd
  have hnd2 : ((List.insertionSort fieldLe l2).map Prod.fst).Nodup :=
    ((hperm12.map Prod.fst).nodup_iff).mp hnd1
  have hne1 : (List.insertionSort fieldLe l1).Pairwise (fun a b => a.1 ≠ b.1) :=
    List.pairwise_map.mp hnd1
  have hne2 : (List.insertionSort fieldLe l2).Pairwise (fun a b => a.1 ≠ b.1) :=
    List.pairwise_map.mp hnd2
  have hs1 : (List.insertionSort fieldLe l1).Pairwise fieldLe :=
    List.sorted_insertionSort fieldLe l1
  have hs2 : (List.insertionSort fieldLe l2).Pairwise fieldLe :=
    List.sorted_insertionSort fieldLe l2
  exact List.eq_of_perm_of_sorted hperm12 (hs1.and hne1) (hs2.and hne2)

/-- Two JSON values that are structurally equal except that the fields of
any object (at any depth) may have been inserted in a different order. -/
inductive Jeq : Json → Json → Prop where
  | null : Jeq .null .null
  | bool (b : Bool) : Jeq (.bool b) (.bool b)
  | num (n : Int) : Jeq (.num n) (.num n)
  | str (s : String) : Jeq (.str s) (.str s)
  | arrNil : Jeq (.arr []) (.arr [])
  | arrCons (x y : Json) (xs ys : List Json) :
      Jeq x y → Jeq (.arr xs) (.arr ys) → Jeq (.arr (x :: xs)) (.arr (y :: ys))
  | objNil : Jeq (.obj []) (.obj [])
  | objCons (k : String) (v w : Json) (fs gs : List (String × Json)) :
      Jeq v w → Jeq (.obj fs) (.obj gs) →
      Jeq (.obj ((k, v) :: fs)) (.obj ((k, w) :: gs))
  | objPerm (fs gs gs' : List (String × Json)) :
      Jeq (.obj fs) (.obj gs) → gs.Perm gs' → Jeq (.obj fs) (.obj gs')

/-- Well-formed JSON: every object (at any depth) has pairwise-distinct
keys — every value a JavaScript object graph can denote. -/
inductive WFJson : Json → Prop where
  | null : WFJson .null
  | bool (b : Bool) : WFJson (.bool b)
  | num (n : Int) : WFJson (.num n)
  | str (s : String) : WFJson (.str s)
  | arr (xs : List Json) : (∀ x ∈ xs, WFJson x) → WFJson (.arr xs)
  | obj (fs : List (String × Json)) : (fs.map Prod.fst).Nodup →
      (∀ kv ∈ fs, WFJson kv.2) → WFJson (.obj fs)

/-- Canonical serialization is invariant under `Jeq` (for well-formed
values): object key order never affects `stableStringify`. The two side
components strengthen the induction for element lists and field lists. -/
theorem stringify_of_Jeq {a b : Json} (h : Jeq a b) : WFJson a →
    stableStringify a = stableStringify b ∧
    (∀ xs ys, a = .arr xs → b = .arr ys → stringifyElems xs = stringifyElems ys) ∧
    (∀ fs gs, a = .obj fs → b = .obj gs →
      (stringifyFields fs).Perm (stringifyFields gs)) := by
  induction h with
  | null => intro _; refine ⟨rfl, ?_, ?_⟩ <;> intro _ _ h1 _ <;> cases h1
  | bool b => intro _; refine ⟨rfl, ?_, ?_⟩ <;> intro _ _ h1 _ <;> cases h1
  | num n => intro _; refine ⟨rfl, ?_, ?_⟩ <;> intro _ _ h1 _ <;> cases h1
  | str s => intro _; refine ⟨rfl, ?_, ?_⟩ <;> intro _ _ h1 _ <;> cases h1
  | arrNil =>
    intro _
    refine ⟨rfl, ?_, ?_⟩
    · intro xs ys h1 h2
      injection h1 with e1
      injection h2 with e2
      subst e1; subst e2; rfl
    · intro _ _ h1 _; cases h1
  | arrCons x y xs ys hxy hxs ihx ihs =>
    intro hwf
    have hwfx : WFJson x := by
      cases hwf with
      | arr _ hall => exact hall x (by simp)
    have hwfxs : WFJson (.arr xs) := by
      cases hwf with
      | arr _ hall => exact WFJson.arr xs (fun z hz => hall z (by simp [hz]))
    have hx := ihx hwfx
    have hs := ihs hwfxs
    have helems : stringifyElems (x :: xs) = stringifyElems (y :: ys) := by
      rw [stringifyElems, stringifyElems, hx.1, hs.2.1 xs ys rfl rfl]
    refine ⟨?_, ?_, ?_⟩
    · rw [stableStringify, stableStringify, helems]
    · intro xs2 ys2 h1 h2
      injection h1 with e1
      injection h2 with e2
      subst e1; subst e2
      exact helems
    · intro _ _ h1 _; cases h1
  | objNil =>
    intro _
    refine ⟨rfl, ?_, ?_⟩
    · intro _ _ h1 _; cases h1
    · intro fs gs h1 h2
      injection h1 with e1
      injection h2 with e2
      subst e1; subst e2
      exact List.Perm.refl _
  | objCons k v w fs gs hvw hfs ihv ihf =>
    intro hwf
    have hnd : (((k, v) :: fs).map Prod.fst).Nodup := by
      cases hwf with
      | obj _ hnd2 _ => exact hnd2
    have hwfv : WFJson v := by
      cases hwf with
      | obj _ _ hall => exact hall (k, v) (by simp)
    have hwffs : WFJson (.obj fs) := by
      cases hwf with
      | obj _ hnd2 hall =>
        exact WFJson.obj fs (by simp_all [List.nodup_cons])
          (fun kv hkv => hall kv (by simp [hkv]))
    have hv := ihv hwfv
    have hf := ihf hwffs
    have hperm : (stringifyFields ((k, v) :: fs)).Perm (stringifyFields ((k, w) :: gs)) := by
      rw [stringifyFields, stringifyFields, hv.1]
      exact List.Perm.cons _ (hf.2.2 fs gs rfl rfl)
    have hndS : ((stringifyFields ((k, v) :: fs)).map Prod.fst).Nodup := by
      rw [stringifyFields_fst]
      exact hnd
    refine ⟨?_, ?_, ?_⟩
    · rw [stableStringify, stableStringify, insertionSort_eq_of_perm _ _ hperm hndS]
    · intro _ _ h1 _; cases h1
    · intro fs2 gs2 h1 h2
      injection h1 with e1
      injection h2 with e2
      subst e1; subst e2
      exact hperm
  | objPerm fs gs gs2 hJ hp ih =>
    intro hwf
    have hnd : (fs.map Prod.fst).Nodup := by
      cases hwf with
      | obj _ hnd2 _ => exact hnd2
    have hf := ih hwf
    have hperm : (stringifyFields fs).Perm (stringifyFields gs2) := by
      have hA := hf.2.2 fs gs rfl rfl
      have hB : (stringifyFields gs).Perm (stringifyFields gs2) := by
        rw [stringifyFields_eq_map, stringifyFields_eq_map]
        exact hp.map _
      exact hA.trans hB
    have hndS : ((stringifyFields fs).map Prod.fst).Nodup := by
      rw [stringifyFields_fst]
      exact hnd
    refine ⟨?_, ?_, ?_⟩
    · rw [stableStringify, stableStringify, insertionSort_eq_of_perm _ _ hperm hndS]
    · intro _ _ h1 _; cases h1
    · intro fs2 gs3 h1 h2
      injection h1 with e1
      injection h2 with e2
      subst e1; subst e2
      exact hperm

/-- C5: `_getHash` yields the same digest for any two structurally equal
values whose object keys (at any depth) were inserted in different orders —
the canonical serialization sorts keys, so the SHA-256 input coincides. -/
theorem claim_C5 (a b : Json) (h : Jeq a b) (hwf : WFJson a) :
    NaeuralBC._getHash a = NaeuralBC._getHash b := by
  have hs := (stringify_of_Jeq h hwf).1
  cases h <;> first
    | rfl
    | (simp only [NaeuralBC._getHash]; rw [hs])

def c5a : Json :=
  .obj [("b", .num 2), ("a", .obj [("y", .num 1), ("x", .num 0)])]

def c5b : Json :=
  .obj [("a", .obj [("x", .num 0), ("y", .num 1)]), ("b", .num 2)]

theorem claim_C5_witness : NaeuralBC._getHash c5a = NaeuralBC._getHash c5b := by
  apply claim_C5
  · show Jeq c5a c5b
    apply Jeq.objPerm _ [("b", .num 2), ("a", .obj [("x", .num 0), ("y", .num 1)])] _
    · apply Jeq.objCons
      · exact Jeq.num 2
      · apply Jeq.objCons
        · apply Jeq.objPerm _ [("y", .num 1), ("x", .num 0)] _
          · exact Jeq.objCons _ _ _ _ _ (Jeq.num 1)
              (Jeq.objCons _ _ _ _ _ (Jeq.num 0) Jeq.objNil)
          · decide
        · exact Jeq.objNil
    · decide
  · show WFJson c5a
    refine WFJson.obj _ (by decide) ?_
    intro kv hkv
    simp only [List.mem_cons, List.not_mem_nil, or_false] at hkv
    rcases hkv with rfl | rfl
    · exact WFJson.num 2
    · refine WFJson.obj _ (by decide) ?_
      intro kv2 hkv2
      simp only [List.mem_cons, List.not_mem_nil, or_false] at hkv2
      rcases hkv2 with rfl | rfl
      · exact WFJson.num 1
      · exact WFJson.num 0
